import Mathlib

/-!
Verification of the prazod schema converter (Zod validation AST ↔ Prisma
relational AST).  The definitions below are a shallow embedding of the
TypeScript sources: `src/utils/string-utils.ts` (the relation matcher),
`src/parsing/zod-parser.ts` (the reverse transformer `zodToPrisma` and its
helpers), the type-mapping factory (`mapType` / `createPrismaType`), the
forward scalar table `PRISMA_TO_ZOD_MAP`, and the `validate` step of the
Prisma parser layer.

Modelling conventions:
* JavaScript numbers are modelled as `ℚ` (all constants appearing in the
  code — 0.95, 0.5, 1.3, … — are exactly representable; no claim in scope
  depends on float rounding).
* JavaScript strings are Lean `String`s; `toLowerCase`/`toUpperCase` are
  modelled on the ASCII range (`Char.toLower`/`Char.toUpper`), which is
  exact for the identifier alphabets the code manipulates.
* JavaScript `Map`/`Set` are insertion-ordered association lists with
  overwrite-on-set semantics, matching ES2015 semantics for fixed input.
* The `Fuse` fuzzy-search dependency is an external package (not part of
  this repository); the matcher is parameterised by an abstract search
  function `fuzzy : String → List (String × ℚ)` returning (item, score)
  pairs, exactly the data the code reads from `fuse.search`.
* The regular-expression patterns used for annotation extraction are
  embedded as explicit scanners reproducing the leftmost-match semantics
  of the concrete patterns in the source.
-/

namespace Prazod

/-! ## JavaScript string primitives -/

/-- Characters in the class `[a-z]` (code points 97-122). -/
def lowerAlpha (c : Char) : Bool := 97 ≤ c.toNat && c.toNat ≤ 122

/-- Characters in the class `[A-Z]` (code points 65-90). -/
def upperAlpha (c : Char) : Bool := 65 ≤ c.toNat && c.toNat ≤ 90

/-- Characters in the class `[0-9]` (code points 48-57). -/
def digitCh (c : Char) : Bool := 48 ≤ c.toNat && c.toNat ≤ 57

/-- Characters in the class `\w`, i.e. `[A-Za-z0-9_]`. -/
def wordCh (c : Char) : Bool := lowerAlpha c || upperAlpha c || digitCh c || c = '_'

/-- JavaScript whitespace (`\s`), restricted to the ASCII members. -/
def wsCh (c : Char) : Bool :=
  c = ' ' || c = '\t' || c = '\n' || c = '\r' || c = '\x0b' || c = '\x0c'

/-- `String.prototype.toLowerCase`, ASCII range. -/
def jsToLower (s : String) : String := String.mk (s.data.map Char.toLower)

/-- `s.charAt(0).toUpperCase() + s.slice(1)` as used throughout the source. -/
def capFirst (s : String) : String :=
  match s.data with
  | [] => ""
  | c :: cs => String.mk (Char.toUpper c :: cs)

/-- `s.charAt(0).toLowerCase() + s.slice(1)`. -/
def decapFirst (s : String) : String :=
  match s.data with
  | [] => ""
  | c :: cs => String.mk (Char.toLower c :: cs)

/-- `String.prototype.trim`. -/
def jsTrim (s : String) : String :=
  String.mk (((s.data.dropWhile wsCh).reverse.dropWhile wsCh).reverse)

/-- List prefix test. -/
def listPre : List Char → List Char → Bool
  | [], _ => true
  | _ :: _, [] => false
  | p :: ps, c :: cs => p = c && listPre ps cs

/-- List infix test: `needle` occurs somewhere in `hay`. -/
def listInfix (needle : List Char) : List Char → Bool
  | [] => listPre needle []
  | c :: cs => listPre needle (c :: cs) || listInfix needle cs

/-- `String.prototype.includes`. -/
def strIncludes (hay needle : String) : Bool := listInfix needle.data hay.data

/-- `String.prototype.startsWith`. -/
def strStartsWith (s pre : String) : Bool := listPre pre.data s.data

/-- `String.prototype.endsWith`. -/
def strEndsWith (s suf : String) : Bool := listPre suf.data.reverse s.data.reverse

/-- `s.slice(0, -n)`: drop the last `n` characters. -/
def dropRightStr (s : String) (n : Nat) : String :=
  String.mk (s.data.take (s.data.length - n))

/-- The last `n` characters of a string. -/
def lastChars (s : String) (n : Nat) : String :=
  String.mk (s.data.drop (s.data.length - n))

/-- Concatenation of a list of strings (`Array.prototype.join("")`). -/
def joinAll (l : List String) : String := l.foldl (· ++ ·) ""

/-- Split a character list at every occurrence of `sep` (separators
dropped, empty pieces kept — ECMAScript `split` semantics). -/
def splitOnChar (sep : Char) : List Char → List (List Char)
  | [] => [[]]
  | c :: cs =>
    if c = sep then [] :: splitOnChar sep cs
    else
      match splitOnChar sep cs with
      | r :: rs => (c :: r) :: rs
      | [] => [[c]]

/-- `s.split(",")` (JavaScript `String.prototype.split` with a comma). -/
def splitComma (s : String) : List String := (splitOnChar ',' s.data).map String.mk

/-- `split(",").map(s => s.trim()).filter(Boolean)` — the id-list splitter. -/
def splitCommaTrim (s : String) : List String :=
  ((splitComma s).map jsTrim).filter (· ≠ "")

/-- Maximal runs of characters satisfying `p`, separators discarded. -/
def splitRuns (p : Char → Bool) : List Char → List (List Char)
  | [] => []
  | c :: cs =>
    if p c then
      match splitRuns p cs with
      | [] => [[c]]
      | r :: rs =>
        match cs with
        | [] => [[c]]
        | d :: _ => if p d then (c :: r) :: rs else [c] :: r :: rs
    else splitRuns p cs

/--
`tokenize` from `PureFSTRelationMatcher`:
`s.split(/[^a-z0-9]+|(?<=[a-z])(?=[A-Z])/).filter(t => t.length > 0 && !/^\d+$/.test(t))`.
Uppercase letters fall in `[^a-z0-9]` and are therefore consumed as
separators, so the zero-width case-boundary alternative never fires and the
split is exactly "maximal runs of `[a-z0-9]`"; the filter then drops empty
and all-digit tokens.
-/
def jsTokenize (s : String) : List String :=
  ((splitRuns (fun c => lowerAlpha c || digitCh c) s.data).filter
      (fun t => ¬ t.all digitCh)).map String.mk

/--
`relationName.split(/(?=[A-Z])/)`: cut before every `[A-Z]` character,
except that a zero-width match at position 0 produces no leading empty
piece; the empty string splits to `[""]`.
-/
def splitBeforeUpper (s : String) : List String :=
  match s.data with
  | [] => [""]
  | c :: cs =>
    let rec go (acc : List Char) : List Char → List (List Char)
      | [] => [acc.reverse]
      | d :: ds =>
        if upperAlpha d then acc.reverse :: go [d] ds else go (d :: acc) ds
    (go [c] cs).map String.mk

/-! ## JavaScript Map / Set on association lists -/

/-- `Map.prototype.set`: overwrite in place, else append (insertion order). -/
def jsMapSet {α : Type} (m : List (String × α)) (k : String) (v : α) :
    List (String × α) :=
  match m with
  | [] => [(k, v)]
  | (k', v') :: rest =>
    if k' = k then (k, v) :: rest else (k', v') :: jsMapSet rest k v

/-- `Map.prototype.get`. -/
def jsMapGet {α : Type} (m : List (String × α)) (k : String) : Option α :=
  match m with
  | [] => none
  | (k', v) :: rest => if k' = k then some v else jsMapGet rest k

/-- `Set.prototype.add` on an insertion-ordered list. -/
def jsSetAdd (l : List String) (x : String) : List String :=
  if x ∈ l then l else l ++ [x]

/-! ## Annotation scanners

Explicit embeddings of the regular expressions the source applies to
documentation strings, with leftmost-match semantics: at each position the
literal head is tried; on failure the scan advances one character. -/

/-- Drop a literal character sequence from the head of the input. -/
def dropLit : List Char → List Char → Option (List Char)
  | [], s => some s
  | _ :: _, [] => none
  | p :: ps, c :: cs => if c = p then dropLit ps cs else none

/-- At the current position: `\s*` then `"` then `([^"]+)` then `"`. -/
def quotedAfterWs (s : List Char) : Option String :=
  let s := s.dropWhile wsCh
  match dropLit ['"'] s with
  | none => none
  | some rest =>
    let cap := rest.takeWhile (· ≠ '"')
    if cap ≠ [] && (rest.drop cap.length).head? = some '"' then
      some (String.mk cap)
    else none

/-- Generic leftmost scan: try `att` at every position, left to right. -/
def scanFirst {α : Type} (att : List Char → Option α) : List Char → Option α
  | [] => att []
  | c :: cs =>
    match att (c :: cs) with
    | some r => some r
    | none => scanFirst att cs

/-- `/@relation\(([^)]+)\)/`: first capture. -/
def scanRelContent (doc : String) : Option String :=
  scanFirst
    (fun s =>
      match dropLit "@relation(".data s with
      | none => none
      | some rest =>
        let cap := rest.takeWhile (· ≠ ')')
        if cap ≠ [] && (rest.drop cap.length).head? = some ')' then
          some (String.mk cap)
        else none)
    doc.data

/-- `/name:\s*"([^"]+)"/`: first capture. -/
def scanNameArg (content : String) : Option String :=
  scanFirst
    (fun s =>
      match dropLit "name:".data s with
      | none => none
      | some rest => quotedAfterWs rest)
    content.data

/-- `/^"([^"]+)"/`: anchored leading quoted capture. -/
def scanLeadQuoted (content : String) : Option String :=
  match dropLit ['"'] content.data with
  | none => none
  | some rest =>
    let cap := rest.takeWhile (· ≠ '"')
    if cap ≠ [] && (rest.drop cap.length).head? = some '"' then
      some (String.mk cap)
    else none

/-- `content.match(/^"[^"]+"/)` used as the guard before `scanLeadQuoted`. -/
def hasLeadQuoted (content : String) : Bool := (scanLeadQuoted content).isSome

/-- `/<kw>:\s*\[([^\]]+)\]/`: first capture (used for `fields` / `references`). -/
def scanBracketArg (kw : String) (content : String) : Option String :=
  scanFirst
    (fun s =>
      match dropLit (kw ++ ":").data s with
      | none => none
      | some rest =>
        let rest := rest.dropWhile wsCh
        match dropLit ['['] rest with
        | none => none
        | some rest2 =>
          let cap := rest2.takeWhile (· ≠ ']')
          if cap ≠ [] && (rest2.drop cap.length).head? = some ']' then
            some (String.mk cap)
          else none)
    content.data

/-- `/<kw>:\s*(\w+)/`: first capture (used for `onDelete` / `onUpdate`). -/
def scanWordArg (kw : String) (content : String) : Option String :=
  scanFirst
    (fun s =>
      match dropLit (kw ++ ":").data s with
      | none => none
      | some rest =>
        let rest := rest.dropWhile wsCh
        let w := rest.takeWhile wordCh
        if w ≠ [] then some (String.mk w) else none)
    content.data

/-- `/@map\("([^"]+)"\)/`: first capture. -/
def scanMapAttr (doc : String) : Option String :=
  scanFirst
    (fun s =>
      match dropLit "@map(\"".data s with
      | none => none
      | some rest =>
        let cap := rest.takeWhile (· ≠ '"')
        if cap ≠ [] && listPre "\")".data (rest.drop cap.length) then
          some (String.mk cap)
        else none)
    doc.data

/-- `/@db\.(\w+)/`: first capture (the native-type hint). -/
def scanDbWord (doc : String) : Option String :=
  scanFirst
    (fun s =>
      match dropLit "@db.".data s with
      | none => none
      | some rest =>
        let w := rest.takeWhile wordCh
        if w ≠ [] then some (String.mk w) else none)
    doc.data

/-- One match of `/@db\.\w+(?:\([^)]+\))?/` at the current position:
returns the whole matched text and the remaining input. -/
def dbMatchHere (s : List Char) : Option (String × List Char) :=
  match dropLit "@db.".data s with
  | none => none
  | some rest =>
    let w := rest.takeWhile wordCh
    if w = [] then none
    else
      let rest2 := rest.drop w.length
      match dropLit ['('] rest2 with
      | some inner =>
        let cap := inner.takeWhile (· ≠ ')')
        if cap ≠ [] && (inner.drop cap.length).head? = some ')' then
          some ("@db." ++ String.mk w ++ "(" ++ String.mk cap ++ ")",
            inner.drop (cap.length + 1))
        else some ("@db." ++ String.mk w, rest2)
      | none => some ("@db." ++ String.mk w, rest2)

/-- Fuel-bounded `matchAll` driver: collect every match of `att`,
resuming after each match, advancing one character otherwise. -/
def scanAll {α : Type} (att : List Char → Option (α × List Char)) :
    Nat → List Char → List α
  | 0, _ => []
  | _ + 1, [] =>
    match att [] with
    | some (r, _) => [r]
    | none => []
  | fuel + 1, c :: cs =>
    match att (c :: cs) with
    | some (r, rest) => r :: scanAll att fuel rest
    | none => scanAll att fuel cs

/-- `doc.match(/@db\.\w+(?:\([^)]+\))?/g)`: all matched texts. -/
def scanDbAll (doc : String) : List String :=
  scanAll dbMatchHere (doc.data.length + 1) doc.data

/-- At the current position: `,\s*<kw>:\s*"([^"]+)"` then `)`; returns the
capture and the input after the closing parenthesis. -/
def optNamedTail (kw : String) (s : List Char) : Option (String × List Char) :=
  match dropLit [','] s with
  | none => none
  | some r1 =>
    let r1 := r1.dropWhile wsCh
    match dropLit (kw ++ ":").data r1 with
    | none => none
    | some r2 =>
      let r2 := r2.dropWhile wsCh
      match dropLit ['"'] r2 with
      | none => none
      | some r3 =>
        let cap := r3.takeWhile (· ≠ '"')
        if cap ≠ [] && listPre "\")".data (r3.drop cap.length) then
          some (String.mk cap, r3.drop (cap.length + 2))
        else none

/-- One match of `/@@<tag>\(\[([^\]]+)\](?:,\s*<kw>:\s*"([^"]+)")?\)/` at the
current position: the field-list capture, the optional trailing capture, and
the rest of the input. -/
def dblAttrHere (tag kw : String) (s : List Char) :
    Option ((String × Option String) × List Char) :=
  match dropLit ("@@" ++ tag ++ "([").data s with
  | none => none
  | some rest =>
    let cap := rest.takeWhile (· ≠ ']')
    if cap = [] || (rest.drop cap.length).head? ≠ some ']' then none
    else
      let tail := rest.drop (cap.length + 1)
      match optNamedTail kw tail with
      | some (nm, rest2) => some ((String.mk cap, some nm), rest2)
      | none =>
        match dropLit [')'] tail with
        | some rest2 => some ((String.mk cap, none), rest2)
        | none => none

/-- `matchAll` of a double-at attribute pattern over a model doc. -/
def scanDblAttrs (tag kw : String) (doc : String) :
    List (String × Option String) :=
  scanAll (dblAttrHere tag kw) (doc.data.length + 1) doc.data

/-- `/@@id\(\[([^\]]+)\]\)/`: first capture. -/
def scanDblId (doc : String) : Option String :=
  scanFirst
    (fun s =>
      match dropLit "@@id([".data s with
      | none => none
      | some rest =>
        let cap := rest.takeWhile (· ≠ ']')
        if cap ≠ [] && listPre "])".data (rest.drop cap.length) then
          some (String.mk cap)
        else none)
    doc.data

/-- `/@@map\("([^"]+)"\)/`: first capture. -/
def scanDblMap (doc : String) : Option String :=
  scanFirst
    (fun s =>
      match dropLit "@@map(\"".data s with
      | none => none
      | some rest =>
        let cap := rest.takeWhile (· ≠ '"')
        if cap ≠ [] && listPre "\")".data (rest.drop cap.length) then
          some (String.mk cap)
        else none)
    doc.data

/-- `/@relation\((?:"([^"]+)"|name:\s*"([^"]+)")/` from
`learnGlobalPatterns`: immediately after the literal `@relation(` either a
quoted name or `name:` + whitespace + a quoted name; no closing parenthesis
is required. -/
def scanRelNameLoose (doc : String) : Option String :=
  scanFirst
    (fun s =>
      match dropLit "@relation(".data s with
      | none => none
      | some rest =>
        match scanLeadQuoted (String.mk rest) with
        | some n => some n
        | none =>
          match dropLit "name:".data rest with
          | none => none
          | some r2 => quotedAfterWs r2)
    doc.data

/-! ## Data model

`src/domain/zod-ast.ts` and `src/domain/prisma-ast.ts`.  TypeScript
`unknown` default values are modelled by `JsVal`, with `JsVal.objLike`
standing for any value that is neither a string, number, boolean, `null`
nor `undefined` (objects, arrays, dates, …). -/

/-- A JavaScript runtime value as far as `typeof` discrimination goes. -/
inductive JsVal where
  | str (s : String)
  | num (q : ℚ)
  | bool (b : Bool)
  | nullv
  | undef
  | objLike
  deriving DecidableEq, Repr

/-- `typeof v ∈ {string, number, boolean}` and `v` is neither `null` nor
`undefined` — the guard on emitting a literal default. -/
def JsVal.isScalar : JsVal → Bool
  | .str _ => true
  | .num _ => true
  | .bool _ => true
  | _ => false

inductive StringValidation where
  | MinLength (value : ℚ)
  | MaxLength (value : ℚ)
  | Length (value : ℚ)
  | Email | Url | Uuid | Cuid | Cuid2 | Ulid | Nanoid
  | Datetime | Ip
  | Regex (pattern : String)
  | Emoji | Base64 | Trim | ToLowerCase | ToUpperCase
  | StartsWith (value : String)
  | EndsWith (value : String)
  | Includes (value : String)
  deriving DecidableEq, Repr

inductive NumberValidation where
  | Min (value : ℚ)
  | Max (value : ℚ)
  | Gt (value : ℚ)
  | Gte (value : ℚ)
  | Lt (value : ℚ)
  | Lte (value : ℚ)
  | Int | Positive | Nonnegative | Negative | Nonpositive
  | MultipleOf (value : ℚ)
  | Step (value : ℚ)
  | Finite | Safe
  deriving DecidableEq, Repr

inductive ZodType where
  | ZodString (validations : List StringValidation)
  | ZodNumber (validations : List NumberValidation)
  | ZodBigInt
  | ZodBoolean
  | ZodDate
  | ZodNull
  | ZodUndefined
  | ZodNaN
  | ZodUnknown
  | ZodLiteral (value : JsVal)
  | ZodArray (element : ZodType)
  | ZodTuple (items : List ZodType)
  | ZodUnion (options : List ZodType)
  | ZodRecord (keyType valueType : ZodType)
  | ZodObject (name : String)
  | ZodEnum (name : String)
  | ZodOptional (inner : ZodType)
  | ZodNullable (inner : ZodType)
  | ZodDefault (inner : ZodType) (defaultValue : JsVal)

structure ZodField where
  name : String
  type : ZodType
  documentation : Option String := none

structure ZodObjectT where
  name : String
  fields : List ZodField
  documentation : Option String := none

structure ZodEnumT where
  name : String
  values : List String
  documentation : Option String := none
  deriving DecidableEq, Repr

structure ZodSchemaT where
  objects : List ZodObjectT
  enums : List ZodEnumT

/-- `PrismaFieldType`: a scalar name string, an enum reference or a model
reference. -/
inductive PrismaFieldType where
  | scalar (s : String)
  | enum (name : String)
  | model (name : String)
  deriving DecidableEq, Repr

/-- `(field.type as any).name`: `undefined` on plain scalar strings. -/
def PrismaFieldType.nameOf : PrismaFieldType → Option String
  | .scalar _ => none
  | .enum n => some n
  | .model n => some n

/-- A `string | number | boolean` literal default. -/
inductive LitVal where
  | s (v : String)
  | n (v : ℚ)
  | b (v : Bool)
  deriving DecidableEq, Repr

/-- The scalar payload of a `JsVal` that passed `isScalar`. -/
def JsVal.toLit : JsVal → LitVal
  | .str s => .s s
  | .num q => .n q
  | .bool b => .b b
  | _ => .s ""

inductive PrismaDefaultValue where
  | Literal (value : LitVal)
  | AutoIncrement
  | Auto
  | Sequence
  | Now
  | Uuid
  | Cuid
  | Ulid
  | Nanoid (length : Option ℚ)
  | DbGenerated (expression : String)
  deriving DecidableEq, Repr

structure PrismaRelation where
  name : Option String := none
  fields : List String := []
  references : List String := []
  onDelete : Option String := none
  onUpdate : Option String := none
  deriving DecidableEq, Repr

inductive PrismaFieldAttribute where
  | Default (value : PrismaDefaultValue)
  | Unique
  | Id
  | UpdatedAt
  | Ignore
  | Map (name : String)
  | Relation (relation : PrismaRelation)
  | Native (value : String)
  deriving DecidableEq, Repr

/-- Is this attribute the `Relation` variant? -/
def PrismaFieldAttribute.isRel : PrismaFieldAttribute → Bool
  | .Relation _ => true
  | _ => false

/-- Is this attribute the `Default` variant? -/
def PrismaFieldAttribute.isDefault : PrismaFieldAttribute → Bool
  | .Default _ => true
  | _ => false

structure PrismaFieldModifiers where
  isOptional : Bool
  isList : Bool
  isUnique : Bool
  deriving DecidableEq, Repr

structure PrismaField where
  name : String
  type : PrismaFieldType
  modifiers : PrismaFieldModifiers
  attributes : List PrismaFieldAttribute
  documentation : Option String := none
  deriving DecidableEq, Repr

inductive PrismaModelAttribute where
  | Id (fields : List String)
  | Unique (fields : List String) (name : Option String)
  | Index (fields : List String) (name : Option String)
  | FullText (fields : List String) (map : Option String)
  | Ignore
  | Map (name : String)
  deriving DecidableEq, Repr

structure PrismaModel where
  name : String
  fields : List PrismaField
  attributes : List PrismaModelAttribute
  documentation : Option String := none
  deriving DecidableEq, Repr

structure PrismaEnum where
  name : String
  values : List String
  documentation : Option String := none
  deriving DecidableEq, Repr

structure PrismaSchema where
  models : List PrismaModel
  enums : List PrismaEnum
  deriving DecidableEq, Repr

/-! ## The relation matcher (`PureFSTRelationMatcher`) -/

/-- A `match` result: `{modelName, confidence, strategy}`. -/
inductive MatchStrategy where
  | exact
  | learnedPattern
  | learnedSelfRelation
  | fstPattern
  | morphological
  | fuzzy
  deriving DecidableEq, Repr

structure RelationMatchResult where
  modelName : String
  confidence : ℚ
  strategy : MatchStrategy
  deriving DecidableEq, Repr

/--
Matcher state: the constructor arguments plus what `learnGlobalPatterns`
mutates.  The precomputed tables (`lowerToOriginal`, `modelTokens`,
`transitions`) are recomputed on demand from `modelNames`, which agrees
with the constructor because they are pure functions of it.  `fuzzy`
abstracts the external `Fuse` index built over `modelNames`.
-/
structure MatcherState where
  modelNames : List String
  fieldToModel : List (String × String) := []
  relationGraph : List (String × List String) := []
  fuzzy : String → List (String × ℚ) := fun _ => []

/-- `this.lowerToOriginal.get(k)`: the map is written in `modelNames` order
with overwrite-on-set, so a lookup returns the last model whose lowercased
name equals the key. -/
def lowerToOriginal (names : List String) (k : String) : Option String :=
  names.foldl (fun acc m => if jsToLower m = k then some m else acc) none

/-- `this.modelTokens.get(m)` (and, as a set, `this.modelTokenSet.get(m)`):
present exactly for constructor model names, with value `tokenize(m)`. -/
def modelTokensGet (names : List String) (m : String) : Option (List String) :=
  if m ∈ names then some (jsTokenize m) else none

/-- Count the elements of `l` (with multiplicity) that occur in `set`. -/
def countIn (l set : List String) : Nat := (l.filter (· ∈ set)).length

/-- `learnStatistics`: raw bigram counts between consecutive tokens of every
model-name token list, insertion-ordered exactly as the nested loops run. -/
def transCounts (tokLists : List (List String)) :
    List (String × List (String × ℚ)) :=
  tokLists.foldl
    (fun outer tokens =>
      (List.range tokens.length).foldl
        (fun acc i =>
          match tokens.get? i, tokens.get? (i + 1) with
          | some cur, some next =>
            let inner := (jsMapGet acc cur).getD []
            let cnt := (jsMapGet inner next).getD 0
            jsMapSet acc cur (jsMapSet inner next (cnt + 1))
          | _, _ => acc)
        outer)
    []

/-- `learnStatistics`: the normalisation pass dividing every inner count by
the row sum (rows with sum zero are left untouched by the source;
they cannot occur since every recorded count is positive). -/
def transitions (names : List String) : List (String × List (String × ℚ)) :=
  (transCounts (names.map jsTokenize)).map
    (fun p =>
      let sum := (p.2.map (·.2)).foldl (· + ·) 0
      if sum = 0 then p else (p.1, p.2.map (fun q => (q.1, q.2 / sum))))

/-- `this.transitions.get(f)?.get(next) ?? 0`. -/
def transProb (names : List String) (f next : String) : ℚ :=
  match jsMapGet (transitions names) f with
  | none => 0
  | some inner => (jsMapGet inner next).getD 0

/-- `similar(a, b)`: equal, or common prefix plus common suffix (computed
independently, capped at the shorter length each) at least 1.2 times the
shorter length. -/
def similar (a b : String) : Bool :=
  if a = b then true
  else
    let la := a.data
    let lb := b.data
    let mn := min la.length lb.length
    let pre := min ((la.zip lb).takeWhile (fun p => p.1 = p.2)).length mn
    let suf :=
      min ((la.reverse.zip lb.reverse).takeWhile (fun p => p.1 = p.2)).length mn
    ((pre + suf : ℚ)) ≥ (mn : ℚ) * (6 / 5)

/-- `selfConfidence(fieldTokens, modelTokens)`. -/
def selfConfidence (names : List String) (field modelToks : List String) : ℚ :=
  let set :=
    match modelTokensGet names (joinAll modelToks) with
    | some toks => toks.dedup
    | none => modelToks.dedup
  let common := countIn field set
  let denom : ℚ :=
    let d := field.length + modelToks.length - common
    if d = 0 then 1 else (d : ℚ)
  let jaccard := (common : ℚ) / denom
  let len := min field.length modelToks.length
  let pos := ((field.zip modelToks).take len |>.filter (fun p => p.1 = p.2)).length
  let posTerm : ℚ := if len = 0 then 0 else (pos : ℚ) / (len : ℚ)
  min (94 / 100) (jaccard * (65 / 100) + posTerm * (35 / 100))

/-- The per-model score computed inside `fastFstMatch`. -/
def fstScore (names : List String) (fieldTokens mt : List String) : ℚ :=
  let fl := fieldTokens.length
  let ml := mt.length
  let raw :=
    (List.range (min fl ml)).foldl
      (fun acc i =>
        match fieldTokens.get? i, mt.get? i with
        | some f, some m =>
          let acc := acc + (if f = m then 2 else if similar f m then 13 / 10 else 0)
          if i + 1 < fl && i + 1 < ml then
            match mt.get? (i + 1) with
            | some next => acc + transProb names f next * (7 / 10)
            | none => acc
          else acc
        | _, _ => acc)
      (0 : ℚ)
  let mx := max fl ml
  -- a zero `mx` divides by zero; in the source this yields NaN which fails
  -- every later comparison, and in `ℚ` division by zero yields 0, which
  -- fails the same comparisons.
  let lenDiff : ℚ := ((if fl ≥ ml then fl - ml else ml - fl : Nat) : ℚ) / (mx : ℚ)
  (raw / (mx : ℚ)) * (1 - lenDiff * (1 / 2))

/-- `fastFstMatch(fieldTokens)`: best strictly-improving score over the
model list, starting from `bestScore = 0.49`, accepted at `≥ 0.5` and
capped at `0.94`. -/
def fastFstMatch (names : List String) (fieldTokens : List String) :
    Option RelationMatchResult :=
  let best :=
    names.foldl
      (fun (best : String × ℚ) model =>
        let score := fstScore names fieldTokens (jsTokenize model)
        if score > best.2 then (model, score) else best)
      ("", 49 / 100)
  if best.2 ≥ 1 / 2 then
    some ⟨best.1, min (94 / 100) best.2, .fstPattern⟩
  else none

/-- The suffix strip of the morphological tier:
`fieldLow.replace(/(id|ids|ref|refs|key|keys|fk)$/i, "")` on an
already-lowercased string.  The leftmost match is the longest alternative
that is a suffix. -/
def stripMorphSuffix (s : String) : String :=
  if s.data.length ≥ 4 && (lastChars s 4 = "refs" || lastChars s 4 = "keys") then
    dropRightStr s 4
  else if s.data.length ≥ 3 &&
      (lastChars s 3 = "ids" || lastChars s 3 = "ref" || lastChars s 3 = "key") then
    dropRightStr s 3
  else if s.data.length ≥ 2 && (lastChars s 2 = "id" || lastChars s 2 = "fk") then
    dropRightStr s 2
  else s

/--
`PureFSTRelationMatcher.match(fieldName, currentModel)`.

When `currentModel` is not a constructor model name the source dereferences
an absent map entry and throws; that path is modelled as `none` and is
unreachable from the transformer, which only passes names of schema
objects.
-/
def pfMatch (M : MatcherState) (fieldName currentModel : String) :
    Option RelationMatchResult :=
  match jsMapGet M.fieldToModel fieldName with
  | some learned => some ⟨learned, 95 / 100, .learnedPattern⟩
  | none =>
  match lowerToOriginal M.modelNames (jsToLower fieldName) with
  | some exact => some ⟨exact, 1, .exact⟩
  | none =>
  let fieldLow := jsToLower fieldName
  let fieldTokens := jsTokenize fieldLow
  match modelTokensGet M.modelNames currentModel with
  | none => none
  | some curTokens =>
  let curSet := curTokens.dedup
  let common := countIn fieldTokens curSet
  if common > 0 &&
      (common : ℚ) / ((fieldTokens.length + curTokens.length - common : Nat) : ℚ)
        > 33 / 100 then
    some ⟨currentModel, selfConfidence M.modelNames fieldTokens curTokens,
      .learnedSelfRelation⟩
  else
  match fastFstMatch M.modelNames fieldTokens with
  | some fst => some fst
  | none =>
  let clean := jsTrim (stripMorphSuffix fieldLow)
  match (if clean ≠ "" then lowerToOriginal M.modelNames (capFirst clean) else none) with
  | some morph => some ⟨morph, 86 / 100, .morphological⟩
  | none =>
  ((M.fuzzy fieldName).filter (fun r => 1 - r.2 ≥ 6 / 10)).head?.map
    (fun r => ⟨r.1, 1 - r.2, .fuzzy⟩)

/-- `getTargetModelFromGraph(relationName, currentModelName)`. -/
def getTargetModelFromGraph (M : MatcherState)
    (relationName currentModelName : String) : Option String :=
  match jsMapGet M.relationGraph relationName with
  | none => none
  | some [] => none
  | some [only] => some only
  | some l => l.find? (· ≠ currentModelName)

/-- The matcher-private `extractModelFromRelationName`: the first
constructor model name, in declaration order, that is a prefix of the
relation name. -/
def extractModelPrefix (names : List String) (rel : String) : Option String :=
  names.find? (fun m => strStartsWith rel m)

/-- The `replace(/(Id|ID|_id|_ID)$/i, "")` strip inside
`learnGlobalPatterns` (case-insensitive, longest suffix wins). -/
def stripIdSuffixCi (s : String) : String :=
  if s.data.length ≥ 3 && jsToLower (lastChars s 3) = "_id" then dropRightStr s 3
  else if s.data.length ≥ 2 && jsToLower (lastChars s 2) = "id" then dropRightStr s 2
  else s

/-- `learnGlobalPatterns(objects)`: fills `relationGraph` and
`fieldToModel` from every field documentation, in schema order. -/
def learnGlobalPatterns (M : MatcherState) (objects : List ZodObjectT) :
    MatcherState :=
  let step := fun (st : List (String × String) × List (String × List String))
      (objName : String) (f : ZodField) =>
    let doc := f.documentation.getD ""
    match scanRelNameLoose doc with
    | none => st
    | some relationName =>
      let graph :=
        jsMapSet st.2 relationName
          (jsSetAdd ((jsMapGet st.2 relationName).getD []) objName)
      match extractModelPrefix M.modelNames relationName with
      | none => (st.1, graph)
      | some target =>
        let f2m := jsMapSet st.1 f.name target
        let f2m :=
          match scanBracketArg "fields" doc with
          | none => f2m
          | some ids =>
            (splitCommaTrim ids).foldl
              (fun acc id =>
                let acc := jsMapSet acc id target
                let base := stripIdSuffixCi id
                if base ≠ id then jsMapSet acc base target else acc)
              f2m
        (f2m, graph)
  let final :=
    objects.foldl
      (fun st obj => obj.fields.foldl (fun st f => step st obj.name f) st)
      (M.fieldToModel, M.relationGraph)
  { M with fieldToModel := final.1, relationGraph := final.2 }

/-- The matcher's `plural(word)` helper. -/
def matcherPlural (word : String) : String :=
  if (word.data.getLast? = some 's' || word.data.getLast? = some 'x' ||
      word.data.getLast? = some 'z' || strEndsWith word "ch" ||
      strEndsWith word "sh") then
    word ++ "es"
  else if strEndsWith word "y" &&
      ¬ (word.data.length ≥ 2 &&
        (word.data.get? (word.data.length - 2)).any
          (fun c => c = 'a' || c = 'e' || c = 'i' || c = 'o' || c = 'u')) then
    dropRightStr word 1 ++ "ies"
  else word ++ "s"

/--
`suggestBackRelation(forwardField, forwardModel)`.

As in `pfMatch`, an unknown `forwardModel` would throw in the source; the
transformer always passes a schema model name, and the absent-entry case is
modelled as `none`-tokens treated as the empty list.
-/
def suggestBackRelation (names : List String)
    (forwardField forwardModel : String) : Option String :=
  let fieldTokens := jsTokenize (jsToLower forwardField)
  let modelToks := (modelTokensGet names forwardModel).getD []
  if fieldTokens ≠ [] &&
      modelToks.any (fun t =>
        fieldTokens.head? = some t || fieldTokens.head? = some (t ++ "s")) then
    none
  else
    let descriptor := fieldTokens.filter (· ∉ modelToks)
    let plural := matcherPlural (joinAll modelToks)
    some (if descriptor ≠ [] then
        plural ++ joinAll (descriptor.map capFirst)
      else plural)

/-- The exported helper `suggestBackRelationName`: a fresh matcher whose
state beyond `modelNames` is unused. -/
def suggestBackRelationName (forwardField forwardModel : String)
    (modelNames : List String) : Option String :=
  suggestBackRelation modelNames forwardField forwardModel

/-! ## Type mapping (`createPrismaType` / `mapType` and `PRISMA_TO_ZOD_MAP`) -/

/-- `t.validations?.some(v => v._tag === ZOD_VALIDATIONS.Int)`. -/
def hasIntValidation (vs : List NumberValidation) : Bool :=
  vs.any (fun v => match v with | .Int => true | _ => false)

/-- `mapType` from the type-mapping factory: the reverse (Zod → Prisma)
scalar mapping.  Every tag of the AST has a mapper, so the
`String` fallback for unknown tags is unreachable. -/
def mapType : ZodType → PrismaFieldType
  | .ZodString _ => .scalar "String"
  | .ZodBoolean => .scalar "Boolean"
  | .ZodDate => .scalar "DateTime"
  | .ZodBigInt => .scalar "BigInt"
  | .ZodUnknown => .scalar "Json"
  | .ZodNull => .scalar "Json"
  | .ZodUndefined => .scalar "Json"
  | .ZodNaN => .scalar "Json"
  | .ZodTuple _ => .scalar "Json"
  | .ZodRecord _ _ => .scalar "Json"
  | .ZodUnion options =>
    match options with
    | [] => .scalar "Json"
    | o :: _ => mapType o
  | .ZodNumber vs => if hasIntValidation vs then .scalar "Int" else .scalar "Float"
  | .ZodLiteral v =>
    match v with
    | .str _ => .scalar "String"
    | .num _ => .scalar "Float"
    | .bool _ => .scalar "Boolean"
    | _ => .scalar "String"
  | .ZodEnum n => .enum n
  | .ZodObject n => .model n
  | .ZodArray el => mapType el
  | .ZodOptional inner => mapType inner
  | .ZodNullable inner => mapType inner
  | .ZodDefault inner _ => mapType inner

/-- `createPrismaType` simply delegates to `mapType`. -/
def createPrismaType (t : ZodType) : PrismaFieldType := mapType t

/-- `PRISMA_TO_ZOD_MAP` together with the enum/model cases of
`prismaTypeToZodType`; unmapped scalar strings fall back to `ZodUnknown`. -/
def prismaTypeToZodType : PrismaFieldType → ZodType
  | .scalar "String" => .ZodString []
  | .scalar "Int" => .ZodNumber [.Int]
  | .scalar "BigInt" => .ZodBigInt
  | .scalar "Float" => .ZodNumber []
  | .scalar "Decimal" => .ZodNumber []
  | .scalar "Boolean" => .ZodBoolean
  | .scalar "DateTime" => .ZodDate
  | .scalar "Json" => .ZodUnknown
  | .scalar "Bytes" => .ZodUnknown
  | .scalar _ => .ZodUnknown
  | .enum n => .ZodEnum n
  | .model n => .ZodObject n

/-! ## The reverse transformer (`zodToPrisma` and helpers) -/

/-- Truthiness of an optional documentation string. -/
def docTruthy (doc : Option String) : Bool :=
  match doc with
  | some d => d ≠ ""
  | none => false

/-- `relationName || ...` style truthiness on `string | undefined`. -/
def strFalsy (o : Option String) : Bool :=
  match o with
  | none => true
  | some s => s = ""

/-- The `findModel` helper inside `extractModelFromRelationName`: exact
membership, else drop a final `s`, else rewrite a final `ies` to `y`. -/
def findModelHelper (names : List String) (word : String) : Option String :=
  if word ∈ names then some word
  else if strEndsWith word "s" && dropRightStr word 1 ∈ names then
    some (dropRightStr word 1)
  else if strEndsWith word "ies" && (dropRightStr word 3 ++ "y") ∈ names then
    some (dropRightStr word 3 ++ "y")
  else none

/-- Stable insertion into a list kept sorted by descending length. -/
def insertByLenDesc (x : String) : List String → List String
  | [] => [x]
  | y :: ys =>
    if y.data.length ≥ x.data.length then y :: insertByLenDesc x ys
    else x :: y :: ys

/-- `[...modelNames].sort((a, b) => b.length - a.length)`: stable sort by
descending length (ES2019 sort stability). -/
def sortByLenDesc (names : List String) : List String :=
  names.foldl (fun acc x => insertByLenDesc x acc) []

/-- `s.slice(n)`. -/
def sliceFrom (s : String) (n : Nat) : String := String.mk (s.data.drop n)

/-- `extractModelFromRelationName` from the transformer (case-boundary word
split, then four fallback stages over the model list). -/
def extractModelFromRelName (names : List String) (relationName : String)
    (cur : Option String) : Option String :=
  let words := splitBeforeUpper relationName
  let curT : Option String := if strFalsy cur then none else cur
  let step1 : Option String :=
    match words.head? with
    | none => none
    | some fw =>
      if fw = "" then none
      else
        match findModelHelper names fw with
        | none => none
        | some firstModel =>
          if curT = some firstModel && words.length > 1 then
            let second :=
              match words.get? 1 with
              | some sw => if sw ≠ "" then findModelHelper names sw else none
              | none => none
            match second with
            | some m => some m
            | none =>
              match findModelHelper names (joinAll (words.drop 1)) with
              | some m => some m
              | none => some firstModel
          else some firstModel
  match step1 with
  | some m => some m
  | none =>
    let sorted := sortByLenDesc names
    let step2 : Option String :=
      sorted.findSome? (fun modelName =>
        if strStartsWith relationName modelName then
          some
            (if curT = some modelName then
              let suffix := sliceFrom relationName modelName.data.length
              if suffix ≠ "" then
                match findModelHelper names suffix with
                | some m => m
                | none =>
                  match sorted.find? (fun o => strStartsWith suffix o) with
                  | some o => o
                  | none => modelName
              else modelName
            else modelName)
        else none)
    match step2 with
    | some m => some m
    | none =>
      let step3 :=
        words.findSome? (fun w => if w ≠ "" then findModelHelper names w else none)
      match step3 with
      | some m => some m
      | none => sorted.find? (fun m => strIncludes relationName m)

/-- `extractModelFromIdFieldName`: strip the first matching id suffix, then
resolve the base through the matcher, falling back to an exact capitalised
membership test. -/
def extractModelFromIdFieldName (M : MatcherState) (idFieldName : String)
    (cur : Option String) : Option String :=
  let baseName :=
    match ["Id", "ID", "_id", "_ID"].find? (fun suf => strEndsWith idFieldName suf) with
    | some suf => dropRightStr idFieldName suf.data.length
    | none => idFieldName
  if baseName = idFieldName then none
  else
    let capitalizedBase := capFirst baseName
    let viaMatch :=
      match pfMatch M baseName ((if strFalsy cur then none else cur).getD "") with
      | some r =>
        if r.confidence > 1 / 2 && r.modelName ∈ M.modelNames then
          some r.modelName
        else none
      | none => none
    match viaMatch with
    | some m => some m
    | none => if capitalizedBase ∈ M.modelNames then some capitalizedBase else none

/-- `extractModelFromIdField`: read a relation name out of an id field's
`@relation` annotation and delegate to `extractModelFromRelName`. -/
def extractModelFromIdField (idField : ZodField) (M : MatcherState)
    (cur : Option String) : Option String :=
  if ¬ docTruthy idField.documentation then none
  else
    let doc := idField.documentation.getD ""
    match scanRelContent doc with
    | none => none
    | some content =>
      let relationName :=
        match scanNameArg content with
        | some n => some n
        | none => scanLeadQuoted content
      match relationName with
      | some rn => extractModelFromRelName M.modelNames rn cur
      | none => none

/-- `inferFromForeignKeyPattern`: three sibling-field strategies keyed on
`<fieldName>` + id-suffix variants. -/
def inferFromForeignKeyPattern (M : MatcherState) (fieldName : String)
    (allFields : List ZodField) (currentModelName : String) : Option String :=
  let possibleIdField := fieldName ++ "Id"
  let idField := allFields.find? (fun f => f.name = possibleIdField)
  let s1 :=
    match idField with
    | some f =>
      if docTruthy f.documentation then
        extractModelFromIdField f M (some currentModelName)
      else none
    | none => none
  match s1 with
  | some m => some m
  | none =>
    let s2 :=
      if strEndsWith fieldName "Id" then
        let baseFieldName := dropRightStr fieldName 2
        match allFields.find? (fun f => f.name = baseFieldName) with
        | some _ =>
          match idField with
          | some f =>
            if docTruthy f.documentation then
              -- the source forges `{ name: fieldName, documentation }` here;
              -- only the documentation is ever read
              extractModelFromIdField ⟨fieldName, .ZodUnknown, f.documentation⟩ M
                (some currentModelName)
            else none
          | none => none
        | none => none
      else none
    match s2 with
    | some m => some m
    | none =>
      [fieldName ++ "Id", fieldName ++ "ID", fieldName ++ "_id", fieldName ++ "_ID"].findSome?
        (fun variant =>
          match allFields.find?
              (fun f => f.name = variant || jsToLower f.name = jsToLower variant) with
          | some f =>
            if docTruthy f.documentation then
              extractModelFromIdField f M (some currentModelName)
            else none
          | none => none)

/-- `inferRelationModelType`: the resolution cascade for a relation field,
ending in the capitalise-verbatim fallback. -/
def inferRelationModelType (M : MatcherState)
    (fieldName currentModelName : String) (relationName : Option String)
    (allFields : Option (List ZodField)) (relationFields : Option (List String))
    (zodTypeName : Option String) : PrismaFieldType :=
  let viaZodName : Option String :=
    match zodTypeName with
    | some n => if n ≠ "" && n ≠ "Nested" && n ≠ "UnknownEnum" then some n else none
    | none => none
  match viaZodName with
  | some n => .model n
  | none =>
  let viaGraph :=
    if ¬ strFalsy relationName then
      getTargetModelFromGraph M (relationName.getD "") currentModelName
    else none
  match viaGraph with
  | some n => .model n
  | none =>
  let viaRelName :=
    if ¬ strFalsy relationName then
      extractModelFromRelName M.modelNames (relationName.getD "")
        (some currentModelName)
    else none
  match viaRelName with
  | some n => .model n
  | none =>
  let viaIdField :=
    if strFalsy relationName then
      match relationFields with
      | some (idFieldName :: _) =>
        if idFieldName ≠ "" then
          extractModelFromIdFieldName M idFieldName (some currentModelName)
        else none
      | _ => none
    else none
  match viaIdField with
  | some n => .model n
  | none =>
  let viaFk :=
    match allFields with
    | some fs => inferFromForeignKeyPattern M fieldName fs currentModelName
    | none => none
  match viaFk with
  | some n => .model n
  | none =>
  match pfMatch M fieldName currentModelName with
  | some r => .model r.modelName
  | none => .model (capFirst fieldName)

/-- The unwrap loop of `zodFieldToPrismaField`: peel
optional/nullable/array/default layers, collecting the list/optional flags
and any scalar literal defaults, in encounter order. -/
def unwrapZod : ZodType → Bool → Bool → List PrismaFieldAttribute →
    ZodType × Bool × Bool × List PrismaFieldAttribute
  | .ZodOptional inner, l, _, a => unwrapZod inner l true a
  | .ZodNullable inner, l, _, a => unwrapZod inner l true a
  | .ZodArray el, _, o, a => unwrapZod el true o a
  | .ZodDefault inner d, l, o, a =>
    unwrapZod inner l o
      (if d.isScalar then a ++ [.Default (.Literal d.toLit)] else a)
  | t, l, o, a => (t, l, o, a)

/-- The `@relation` documentation parse inside `zodFieldToPrismaField`:
returns (`hasRelation`, the extracted relation name, the attribute to push). -/
def parseRelationDoc (doc : String) :
    Bool × Option String × List PrismaFieldAttribute :=
  match scanRelContent doc with
  | none => (false, none, [])
  | some content =>
    let relationName :=
      match scanNameArg content with
      | some n => some n
      | none => scanLeadQuoted content
    match scanBracketArg "fields" content, scanBracketArg "references" content with
    | some fs, some rs =>
      let rel : PrismaRelation :=
        { name := some (relationName.getD "")
          fields := (splitComma fs).map jsTrim
          references := (splitComma rs).map jsTrim
          onDelete := scanWordArg "onDelete" content
          onUpdate := scanWordArg "onUpdate" content }
      (true, relationName, [.Relation rel])
    | _, _ =>
      match relationName with
      | some n =>
        (true, some n, [.Relation { name := some n, fields := [], references := [] }])
      | none => (true, none, [])

/-- `zodFieldToPrismaField(field, currentModelName, matcher, allFields)`. -/
def zodFieldToPrismaField (M : MatcherState) (field : ZodField)
    (currentModelName : String) (allFields : List ZodField) : PrismaField :=
  let u := unwrapZod field.type false false []
  let type_ := u.1
  let isList := u.2.1
  let isOptional := u.2.2.1
  let attrs0 := u.2.2.2
  let doc? := field.documentation
  let docIncl := fun (needle : String) =>
    match doc? with
    | some d => strIncludes d needle
    | none => false
  let attrs1 :=
    if field.name = "id" || docIncl "@id" then
      attrs0 ++ [.Id] ++
        (match type_ with
        | .ZodString vs =>
          if vs.any (fun v => match v with | .Cuid => true | _ => false) then
            [.Default .Cuid]
          else if vs.any (fun v => match v with | .Uuid => true | _ => false) then
            [.Default .Uuid]
          else []
        | _ => []) ++
        (match type_ with
        | .ZodNumber vs =>
          if hasIntValidation vs then [.Default .AutoIncrement] else []
        | _ => [])
    else attrs0
  let attrs2 :=
    attrs1 ++
      (if field.name = "createdAt" &&
          (match type_ with | .ZodDate => true | _ => false) then
        [.Default .Now]
      else [])
  let attrs3 :=
    attrs2 ++
      (if field.name = "updatedAt" &&
          (match type_ with | .ZodDate => true | _ => false) then
        [.UpdatedAt]
      else [])
  let attrs4 :=
    attrs3 ++
      (if docIncl "@unique" && ¬ attrs3.any (· = .Unique) then [.Unique] else [])
  let relParse :=
    match doc? with
    | some d => parseRelationDoc d
    | none => (false, none, [])
  let hasRelation := relParse.1
  let relationName := relParse.2.1
  let attrs5 := attrs4 ++ relParse.2.2
  let attrs6 :=
    attrs5 ++
      (match doc? with
      | some d => ((scanMapAttr d).map (fun n => PrismaFieldAttribute.Map n)).toList
      | none => [])
  let attrs7 :=
    attrs6 ++
      (match doc? with
      | some d => (scanDbAll d).map (fun v => PrismaFieldAttribute.Native v)
      | none => [])
  let ftl : PrismaFieldType × Bool :=
    if hasRelation then
      let relationFieldsArray :=
        match attrs7.find? PrismaFieldAttribute.isRel with
        | some (.Relation r) => some r.fields
        | _ => none
      (inferRelationModelType M field.name currentModelName relationName
          (some allFields) relationFieldsArray
          (match type_ with | .ZodObject n => some n | _ => none),
        isList)
    else
      let nativeTypeHint := doc?.bind scanDbWord
      let ft0 := createPrismaType type_
      if nativeTypeHint = some "Decimal" then (.scalar "Decimal", isList)
      else if nativeTypeHint = some "Json" then (.scalar "Json", false)
      else (ft0, isList)
  { name := field.name
    type := ftl.1
    modifiers :=
      { isList := ftl.2
        isOptional := isOptional
        isUnique := docIncl "@unique" }
    attributes := attrs7
    documentation := if docTruthy doc? then doc? else none }

/-- The entity-level documentation parse of `zodObjectToPrismaModel`. -/
def parseModelAttrs (doc? : Option String) : List PrismaModelAttribute :=
  match doc? with
  | none => []
  | some doc =>
    ((scanDblAttrs "index" "name" doc).map
        (fun p => PrismaModelAttribute.Index ((splitComma p.1).map jsTrim) p.2)) ++
    ((scanDblAttrs "unique" "name" doc).map
        (fun p => PrismaModelAttribute.Unique ((splitComma p.1).map jsTrim) p.2)) ++
    ((scanDblAttrs "fulltext" "map" doc).map
        (fun p => PrismaModelAttribute.FullText ((splitComma p.1).map jsTrim) p.2)) ++
    ((scanDblId doc).map
        (fun c => PrismaModelAttribute.Id ((splitComma c).map jsTrim))).toList ++
    ((scanDblMap doc).map (fun n => PrismaModelAttribute.Map n)).toList

/-- `zodObjectToPrismaModel(obj, matcher)`. -/
def zodObjectToPrismaModel (M : MatcherState) (obj : ZodObjectT) : PrismaModel :=
  { name := obj.name
    fields := obj.fields.map (fun f => zodFieldToPrismaField M f obj.name obj.fields)
    attributes := parseModelAttrs obj.documentation
    documentation := if docTruthy obj.documentation then obj.documentation else none }

/-- `zodEnumToPrismaEnum`. -/
def zodEnumToPrismaEnum (z : ZodEnumT) : PrismaEnum :=
  { name := z.name
    values := z.values
    documentation := if docTruthy z.documentation then z.documentation else none }

/-- `new Map(models.map(m => [m.name, m])).get(name)`: later entries with a
duplicate name overwrite earlier ones. -/
def modelMapGet (models : List PrismaModel) (name : String) : Option PrismaModel :=
  models.foldl (fun acc m => if m.name = name then some m else acc) none

/-- Is this field's type a model reference to `target`? -/
def typeIsModel (t : PrismaFieldType) (target : String) : Bool :=
  match t with
  | .model n => n = target
  | _ => false

/-- `findFkFieldForRelation`: the first field whose name is the relation
field's name followed by one of the four id-suffix variants. -/
def findFkFieldForRelation (relationFieldName : String) (model : PrismaModel) :
    Option PrismaField :=
  let candidates :=
    [relationFieldName ++ "Id", relationFieldName ++ "ID",
      relationFieldName ++ "_id", relationFieldName ++ "_ID"]
  model.fields.find? (fun f => f.name ∈ candidates)

/-- Rewrite a field's attribute list with the updated relation attribute:
append it when freshly created, otherwise replace the relation slots. -/
def rebuildWithRel (field : PrismaField) (rel : PrismaRelation)
    (isNewAttr : Bool) : PrismaField :=
  let newAttr := PrismaFieldAttribute.Relation rel
  if isNewAttr then { field with attributes := field.attributes ++ [newAttr] }
  else
    { field with
        attributes := field.attributes.map (fun a => if a.isRel then newAttr else a) }

/--
The per-field body of the first post-processing pass of `zodToPrisma`
("enrich forward relations with fields/references when possible"): returns
the updated field together with the foreign-key name to mark unique, if
any.  `modelMap` is the pre-pass model list, exactly as in the source.
-/
def pass1Field (modelMap : List PrismaModel) (model : PrismaModel)
    (field : PrismaField) : PrismaField × Option String :=
  match field.type with
  | .model targetName =>
    let found := field.attributes.find? PrismaFieldAttribute.isRel
    let relationAttr :=
      match found with
      | some (.Relation r) => r
      | _ => { name := some "", fields := [], references := [] }
    let isNewAttr := found.isNone
    let isSelfRef := targetName = model.name
    let assignName := isSelfRef && strFalsy relationAttr.name
    let rel1 :=
      if assignName then
        { relationAttr with name := some (model.name ++ "To" ++ model.name) }
      else relationAttr
    let changed1 := isNewAttr || assignName
    if rel1.fields ≠ [] || rel1.references ≠ [] then
      (if changed1 then rebuildWithRel field rel1 isNewAttr else field, none)
    else
      let fkField := findFkFieldForRelation field.name model
      match fkField with
      | some fk =>
        if isSelfRef || ¬ field.modifiers.isList then
          let rel2 := { rel1 with fields := [fk.name], references := ["id"] }
          let uniq :=
            if ¬ field.modifiers.isList then
              match modelMapGet modelMap targetName with
              | some targetModel =>
                match targetModel.fields.find?
                    (fun f => typeIsModel f.type model.name) with
                | some backField =>
                  if ¬ backField.modifiers.isList then some fk.name else none
                | none => none
              | none => none
            else none
          (rebuildWithRel field rel2 isNewAttr, uniq)
        else
          (if changed1 then rebuildWithRel field rel1 isNewAttr else field, none)
      | none =>
        (if changed1 then rebuildWithRel field rel1 isNewAttr else field, none)
  | _ => (field, none)

/-- The unique-constraint application at the end of the first pass: append
a `Unique` attribute to a collected foreign-key field that does not already
carry one. -/
def markUnique (uniq : List String) (f : PrismaField) : PrismaField :=
  if f.name ∈ uniq then
    if f.attributes.any (· = .Unique) then f
    else { f with attributes := f.attributes ++ [.Unique] }
  else f

/-- The first post-processing pass over one model: map `pass1Field` over
the fields, then append a `Unique` attribute to every collected
foreign-key field that does not already carry one. -/
def pass1Model (modelMap : List PrismaModel) (model : PrismaModel) :
    PrismaModel :=
  let pairs := model.fields.map (pass1Field modelMap model)
  let updatedFields := pairs.map (·.1)
  let fieldsToMakeUnique : List String := pairs.filterMap (·.2)
  { model with fields := updatedFields.map (markUnique fieldsToMakeUnique) }

/--
One step of the second post-processing pass ("add missing back-relations"):
the contribution of a single relation-attributed `field` of `model` to the
`newFieldsByModel` map `nf`.  `modelMap` is the pre-pass-one model list (the
source builds it before the first pass), `models` the post-pass-one list.
-/
def synthField (modelMap models : List PrismaModel) (model : PrismaModel)
    (nf : List (String × List PrismaField)) (field : PrismaField) :
    List (String × List PrismaField) :=
  match field.attributes.find? PrismaFieldAttribute.isRel with
  | some (.Relation relationAttr) =>
    match field.type.nameOf with
    | none => nf
    | some targetModelName =>
      match modelMapGet modelMap targetModelName with
      | none => nf
      | some targetModel =>
        let hasBackRelation :=
          targetModel.fields.any (fun f => typeIsModel f.type model.name) ||
          ((jsMapGet nf targetModelName).getD []).any
            (fun f => f.type.nameOf = some model.name)
        if hasBackRelation then nf
        else
          let backFieldName0 :=
            (suggestBackRelationName field.name model.name
                (models.map (·.name))).getD
              (decapFirst model.name ++ "s")
          let backFieldName :=
            if model.name = targetModelName then
              if field.name = "parent" || field.name = "parentId" then
                "children"
              else if field.name = "manager" then "employees"
              else if field.name = "supervisor" then "subordinates"
              else backFieldName0
            else backFieldName0
          let backAttrs : List PrismaFieldAttribute :=
            if ¬ strFalsy relationAttr.name then
              [.Relation
                  { fields := [], references := [],
                    name := some (relationAttr.name.getD "") }]
            else []
          let backField : PrismaField :=
            { name := backFieldName
              type := .model model.name
              modifiers :=
                { isList := true, isOptional := false, isUnique := false }
              attributes := backAttrs
              documentation := some "Autogenerated back-relation" }
          jsMapSet nf targetModelName
            (((jsMapGet nf targetModelName).getD []) ++ [backField])
  | _ => nf

/-- The back-relation synthesis of pass 2 (`newFieldsByModel`): fold
`synthField` over every field of every model. -/
def synthBackFields (modelMap : List PrismaModel) (models : List PrismaModel) :
    List (String × List PrismaField) :=
  models.foldl
    (fun nf model => model.fields.foldl (synthField modelMap models model) nf)
    []

/-- Apply the synthesised back-relations: drop name-colliding originals and
append the new fields. -/
def applyBackRelations (models : List PrismaModel)
    (nf : List (String × List PrismaField)) : List PrismaModel :=
  if nf ≠ [] then
    models.map (fun model =>
      match jsMapGet nf model.name with
      | none => model
      | some extras =>
        let extraNames := extras.map (·.name)
        { model with
            fields := (model.fields.filter (fun f => f.name ∉ extraNames)) ++ extras })
  else models

/-- `zodToPrisma(zod)`, parameterised over the external fuzzy search. -/
def zodToPrisma (fuzzy : String → List (String × ℚ)) (zod : ZodSchemaT) :
    PrismaSchema :=
  let allModelNames := zod.objects.map (·.name)
  let matcher :=
    learnGlobalPatterns
      { modelNames := allModelNames, fieldToModel := [], relationGraph := [],
        fuzzy := fuzzy }
      zod.objects
  let models0 := zod.objects.map (zodObjectToPrismaModel matcher)
  let enums := zod.enums.map zodEnumToPrismaEnum
  let modelMap := models0
  let models1 := models0.map (pass1Model modelMap)
  let nf := synthBackFields modelMap models1
  let models2 := applyBackRelations models1 nf
  { models := models2, enums := enums }

/-! ## The pre-transformation `validate` step (`PrismaParserLive.validate`) -/

/-- The `InvalidModelError` payload. -/
structure InvalidModelError where
  modelName : String
  reason : String
  deriving DecidableEq, Repr

/-- The duplicate-field sweep over one model's fields, with the growing
`fieldNames` set. -/
def dupErrors (modelName : String) : List PrismaField → List String →
    List InvalidModelError
  | [], _ => []
  | f :: fs, seen =>
    (if f.name ∈ seen then
        [⟨modelName, "Duplicate field \"" ++ f.name ++ "\""⟩]
      else []) ++
      dupErrors modelName fs (jsSetAdd seen f.name)

/-- The errors one model contributes: the empty-model check followed by the
duplicate-field sweep. -/
def modelErrors (m : PrismaModel) : List InvalidModelError :=
  (if m.fields = [] then [⟨m.name, "Model has no fields"⟩] else []) ++
    dupErrors m.name m.fields []

/-- The errors one enum contributes: the empty-enum check. -/
def enumErrors (e : PrismaEnum) : List InvalidModelError :=
  if e.values = [] then [⟨e.name, "Enum has no values"⟩] else []

/-- The complete `errors` array `validate` accumulates over the whole
schema: empty models and duplicate fields per model in order, then empty
enums. -/
def validationErrors (schema : PrismaSchema) : List InvalidModelError :=
  (schema.models.foldl (fun acc model => acc ++ modelErrors model) []) ++
    schema.enums.foldl (fun acc e => acc ++ enumErrors e) []

/-- `validate(schema)`: collect all errors, then
`Effect.fail(errors[0])` — the failure carries only the first error. -/
def validate (schema : PrismaSchema) : Except InvalidModelError Unit :=
  match validationErrors schema with
  | [] => .ok ()
  | e :: _ => .error e

/-! ## Observation helpers and concrete instances used by the claims -/

/-- A fuzzy search returning no results: the stand-in for the external
`Fuse` index in concrete executions.  Every concrete execution below
resolves before the fuzzy tier is consulted, so this choice is inert. -/
def noFuzzy : String → List (String × ℚ) := fun _ => []

/-- The relation name carried by a field's first `Relation` attribute
(`undefined` when the field has none). -/
def relNameOf (f : PrismaField) : Option (Option String) :=
  match f.attributes.find? PrismaFieldAttribute.isRel with
  | some (.Relation r) => some r.name
  | _ => none

/-- The key lists carried by a field's first `Relation` attribute. -/
def relKeysOf (f : PrismaField) : Option (List String × List String) :=
  match f.attributes.find? PrismaFieldAttribute.isRel with
  | some (.Relation r) => some (r.fields, r.references)
  | _ => none

/-- Whether a field's relation name is absent or empty, treating a missing
relation attribute like the freshly-created one the first pass supplies
(whose name is the empty string). -/
def fieldRelNameFalsy (f : PrismaField) : Bool :=
  match f.attributes.find? PrismaFieldAttribute.isRel with
  | some (.Relation r) => strFalsy r.name
  | _ => true

/-- A string beginning with an ASCII uppercase letter. -/
def upperInitial (s : String) : Bool :=
  match s.data with
  | [] => false
  | c :: _ => upperAlpha c

/-- The matching inverse fields, in the final relational schema, for a
relation field `fname` of model `owner` taking part in the named relation
`relName` towards model `target`: fields of `target`, other than the
relation field itself, typed back to `owner` and carrying the same relation
name. -/
def inverseFieldsFor (s : PrismaSchema) (owner fname relName target : String) :
    List PrismaField :=
  ((s.models.filter (fun m => m.name = target)).map (·.fields)).flatten.filter
    (fun g =>
      g.name ≠ fname && typeIsModel g.type owner &&
        relNameOf g = some (some relName))

/-- The well-formedness predicate the validation step enforces: no empty
model, no duplicate field names within a model, no empty enum. -/
def schemaWellFormed (s : PrismaSchema) : Prop :=
  (∀ m ∈ s.models, m.fields ≠ [] ∧ (m.fields.map (·.name)).Nodup) ∧
    (∀ e ∈ s.enums, e.values ≠ [])

/-- C1 counterexample input: a single entity with one self-relation field
carrying the explicit relation name `CategoryTree` and no inverse side. -/
def zsC1 : ZodSchemaT :=
  { objects :=
      [⟨"Category",
        [⟨"parent", .ZodObject "Category", some "@relation(\"CategoryTree\")"⟩],
        none⟩]
    enums := [] }

/-- C2 counterexample input: the `@relation("AccountOwner", fields: [userId],
references: [id])` annotation teaches the matcher the learned pattern
`userId → Account` (and `user → Account`) although `User` is a known
entity. -/
def objsC2 : List ZodObjectT :=
  [⟨"Account",
    [⟨"owner", .ZodObject "User",
      some "@relation(\"AccountOwner\", fields: [userId], references: [id])"⟩],
    none⟩,
   ⟨"User", [⟨"name", .ZodString [], none⟩], none⟩]

/-- The matcher state the reverse transform would build over `objsC2`. -/
def matcherC2 : MatcherState :=
  learnGlobalPatterns
    { modelNames := ["Account", "User"], fieldToModel := [],
      relationGraph := [], fuzzy := noFuzzy }
    objsC2

/-- C7 counterexample input, already at the key-inference pass: a list-typed
relation field with empty key lists and a sibling `tagsId` foreign key. -/
def postModelC7 : PrismaModel :=
  { name := "Post"
    fields :=
      [{ name := "tags"
         type := .model "Tag"
         modifiers := { isList := true, isOptional := false, isUnique := false }
         attributes :=
           [.Relation { name := some "PostTags", fields := [], references := [] }] },
       { name := "tagsId"
         type := .scalar "String"
         modifiers := { isList := false, isOptional := false, isUnique := false }
         attributes := [] }]
    attributes := [] }

/-- The second model of the C7 counterexample schema. -/
def tagModelC7 : PrismaModel :=
  { name := "Tag"
    fields :=
      [{ name := "id"
         type := .scalar "String"
         modifiers := { isList := false, isOptional := false, isUnique := false }
         attributes := [.Id] }]
    attributes := [] }

/-- C3 counterexample input: two empty models, hence two collected errors. -/
def schemaC3 : PrismaSchema :=
  { models := [⟨"A", [], [], none⟩, ⟨"B", [], [], none⟩], enums := [] }

/-- Witness models for the back-relation synthesis pass: `Post.author`
points at `User` with an owning-side relation, `User` has no back field. -/
def userModelW : PrismaModel :=
  { name := "User"
    fields :=
      [{ name := "id"
         type := .scalar "String"
         modifiers := { isList := false, isOptional := false, isUnique := false }
         attributes := [.Id] }]
    attributes := [] }

/-- See `userModelW`. -/
def postModelW : PrismaModel :=
  { name := "Post"
    fields :=
      [{ name := "author"
         type := .model "User"
         modifiers := { isList := false, isOptional := false, isUnique := false }
         attributes :=
           [.Relation
              { name := some "PostAuthor", fields := ["authorId"],
                references := ["id"] }] },
       { name := "authorId"
         type := .scalar "String"
         modifiers := { isList := false, isOptional := false, isUnique := false }
         attributes := [] }]
    attributes := [] }

/-- C7 witness input: a to-one relation field with empty key lists. -/
def profileUserFieldW : PrismaField :=
  { name := "user"
    type := .model "User"
    modifiers := { isList := false, isOptional := false, isUnique := false }
    attributes :=
      [.Relation { name := some "UserProfile", fields := [], references := [] }] }

/-- C7 witness input: the sibling foreign-key field. -/
def profileUserIdFieldW : PrismaField :=
  { name := "userId"
    type := .scalar "String"
    modifiers := { isList := false, isOptional := false, isUnique := false }
    attributes := [] }

/-- C7 witness input: the owning model. -/
def profileModelW : PrismaModel :=
  { name := "Profile"
    fields := [profileUserFieldW, profileUserIdFieldW]
    attributes := [] }

/-- C7 witness input: the to-one back field on the target model. -/
def userProfileFieldW : PrismaField :=
  { name := "profile"
    type := .model "Profile"
    modifiers := { isList := false, isOptional := false, isUnique := false }
    attributes := [] }

/-- C7 witness input: the target model. -/
def userModel2W : PrismaModel :=
  { name := "User"
    fields := [userProfileFieldW]
    attributes := [] }

/-- A self-referential field carrying a relation attribute without a name. -/
def parentFieldW : PrismaField :=
  { name := "parent"
    type := .model "Category"
    modifiers := { isList := false, isOptional := true, isUnique := false }
    attributes := [.Relation {}] }

/-- A model with one nameless self-relation field, exercising the
`<Model>To<Model>` synthesis of pass 1. -/
def catModelW : PrismaModel :=
  { name := "Category"
    fields := [parentFieldW]
    attributes := [] }

/-- The shape invariant of a synthesised back-relation field: list-typed,
non-optional, marked with the generated-content documentation, and any
relation attribute it carries has empty key lists and a present name. -/
def backFieldOk (g : PrismaField) : Prop :=
  g.modifiers.isList = true ∧ g.modifiers.isOptional = false ∧
    g.documentation = some "Autogenerated back-relation" ∧
    ∀ a ∈ g.attributes, ∀ r : PrismaRelation, a = .Relation r →
      r.fields = [] ∧ r.references = [] ∧ ∃ n, r.name = some n

/-- The back-relation field pass 2 synthesises on `User` for
`postModelW.author` (the model-name tokens of `Post` are `[ost]` because
uppercase letters act as token separators). -/
def backFieldW : PrismaField :=
  { name := "ostsAuthor"
    type := .model "Post"
    modifiers := { isList := true, isOptional := false, isUnique := false }
    attributes :=
      [.Relation { name := some "PostAuthor", fields := [], references := [] }]
    documentation := some "Autogenerated back-relation" }

/-! ## Helper lemmas -/

theorem hasInt_iff (vs : List NumberValidation) :
    hasIntValidation vs = true ↔ NumberValidation.Int ∈ vs := by
  simp only [hasIntValidation, List.any_eq_true]
  constructor
  · rintro ⟨v, hv, h⟩
    cases v <;> simp_all
  · intro h
    exact ⟨.Int, h, rfl⟩

theorem hasInt_eq_false {vs : List NumberValidation}
    (h : NumberValidation.Int ∉ vs) : hasIntValidation vs = false := by
  cases hq : hasIntValidation vs with
  | true => exact absurd ((hasInt_iff vs).mp hq) h
  | false => rfl

theorem mem_jsSetAdd (l : List String) (x y : String) :
    y ∈ jsSetAdd l x ↔ y ∈ l ∨ y = x := by
  by_cases hx : x ∈ l
  · simp only [jsSetAdd, if_pos hx]
    constructor
    · exact Or.inl
    · rintro (h | rfl)
      · exact h
      · exact hx
  · simp [jsSetAdd, if_neg hx]

theorem foldl_appended {α β : Type} (g : α → List β) :
    ∀ (l : List α) (acc : List β),
      l.foldl (fun a x => a ++ g x) acc = acc ++ (l.map g).flatten := by
  intro l
  induction l with
  | nil => simp
  | cons x xs ih =>
    intro acc
    simp only [List.foldl_cons, List.map_cons, List.flatten_cons, ih,
      List.append_assoc]

theorem dupErrors_eq_nil (mn : String) :
    ∀ (fs : List PrismaField) (seen : List String),
      dupErrors mn fs seen = [] ↔
        (fs.map (·.name)).Nodup ∧ ∀ f ∈ fs, f.name ∉ seen := by
  intro fs
  induction fs with
  | nil => simp [dupErrors]
  | cons f fs ih =>
    intro seen
    simp only [dupErrors]
    by_cases hs : f.name ∈ seen
    · rw [if_pos hs]
      constructor
      · intro h
        exact absurd h (by simp)
      · rintro ⟨-, hall⟩
        exact absurd hs (hall f (List.mem_cons_self f fs))
    · rw [if_neg hs, List.nil_append, ih]
      simp only [List.map_cons, List.nodup_cons]
      constructor
      · rintro ⟨hnd, hall⟩
        have hf : f.name ∉ fs.map (·.name) := by
          intro hmem
          obtain ⟨g, hg, hgname⟩ := List.mem_map.mp hmem
          have := hall g hg
          rw [mem_jsSetAdd] at this
          exact this (Or.inr hgname)
        refine ⟨⟨hf, hnd⟩, ?_⟩
        intro g hg
        rcases List.mem_cons.mp hg with rfl | hg2
        · exact hs
        · have := hall g hg2
          rw [mem_jsSetAdd] at this
          exact fun hmem => this (Or.inl hmem)
      · rintro ⟨⟨hf, hnd⟩, hall⟩
        refine ⟨hnd, ?_⟩
        intro g hg
        rw [mem_jsSetAdd]
        rintro (hmem | heq)
        · exact hall g (List.mem_cons_of_mem f hg) hmem
        · exact hf (List.mem_map.mpr ⟨g, hg, heq⟩)

theorem validationErrors_eq_nil (s : PrismaSchema) :
    validationErrors s = [] ↔ schemaWellFormed s := by
  simp only [validationErrors]
  rw [foldl_appended modelErrors, foldl_appended enumErrors]
  simp only [List.nil_append, List.append_eq_nil, List.flatten_eq_nil_iff,
    List.mem_map, forall_exists_index, and_imp, forall_apply_eq_imp_iff₂]
  constructor
  · rintro ⟨hm, he⟩
    refine ⟨fun m hmem => ?_, fun e hmem => ?_⟩
    · have := hm m hmem
      rw [modelErrors, List.append_eq_nil] at this
      obtain ⟨h1, h2⟩ := this
      refine ⟨?_, ((dupErrors_eq_nil m.name m.fields []).mp h2).1⟩
      intro hcon
      rw [if_pos hcon] at h1
      exact absurd h1 (by simp)
    · have := he e hmem
      rw [enumErrors] at this
      intro hcon
      rw [if_pos hcon] at this
      exact absurd this (by simp)
  · rintro ⟨hm, he⟩
    refine ⟨fun m hmem => ?_, fun e hmem => ?_⟩
    · rw [modelErrors, List.append_eq_nil]
      obtain ⟨h1, h2⟩ := hm m hmem
      refine ⟨by rw [if_neg h1], ?_⟩
      exact (dupErrors_eq_nil m.name m.fields []).mpr ⟨h2, by simp⟩
    · rw [enumErrors, if_neg (he e hmem)]

theorem toNat_ofNat_valid (n : Nat) (h : n.isValidChar) :
    (Char.ofNat n).toNat = n := by
  rw [Char.ofNat, dif_pos h]
  rfl

theorem lowerAlpha_toUpper (c : Char) : lowerAlpha (Char.toUpper c) = false := by
  rw [Char.toUpper]
  by_cases h : c.toNat ≥ 97 ∧ c.toNat ≤ 122
  · rw [if_pos h]
    have hv : (c.toNat - 32).isValidChar := Or.inl (by omega)
    simp only [lowerAlpha, toNat_ofNat_valid _ hv]
    simp only [Bool.and_eq_false_iff, decide_eq_false_iff_not]
    omega
  · rw [if_neg h]
    simp only [lowerAlpha, Bool.and_eq_false_iff, decide_eq_false_iff_not]
    omega

theorem lowerAlpha_toLower_of_upper {c : Char} (h : upperAlpha c = true) :
    lowerAlpha (Char.toLower c) = true := by
  simp only [upperAlpha, Bool.and_eq_true, decide_eq_true_eq] at h
  rw [Char.toLower, if_pos (by omega)]
  have hv : (c.toNat + 32).isValidChar := Or.inl (by omega)
  simp only [lowerAlpha, toNat_ofNat_valid _ hv]
  simp only [Bool.and_eq_true, decide_eq_true_eq]
  omega

theorem lowerToOriginal_none_of_all (names : List String) (k : String)
    (h : ∀ m ∈ names, jsToLower m ≠ k) : lowerToOriginal names k = none := by
  have aux : ∀ (l : List String) (acc : Option String),
      (∀ m ∈ l, jsToLower m ≠ k) →
      l.foldl (fun acc m => if jsToLower m = k then some m else acc) acc = acc := by
    intro l
    induction l with
    | nil => intro acc _; rfl
    | cons x xs ih =>
      intro acc hall
      simp only [List.foldl_cons, if_neg (hall x (List.mem_cons_self x xs))]
      exact ih acc (fun m hm => hall m (List.mem_cons_of_mem x hm))
  exact aux names none h

theorem lowerToOriginal_capFirst_none (names : List String)
    (hup : ∀ m ∈ names, upperInitial m = true) (clean : String)
    (hc : clean ≠ "") : lowerToOriginal names (capFirst clean) = none := by
  apply lowerToOriginal_none_of_all
  intro m hm heq
  have hui := hup m hm
  obtain ⟨cd⟩ := clean
  cases cd with
  | nil => exact hc rfl
  | cons d ds =>
    obtain ⟨md⟩ := m
    cases md with
    | nil => simp [upperInitial] at hui
    | cons c cs =>
      simp only [upperInitial] at hui
      have hlist : (jsToLower ⟨c :: cs⟩).data = (capFirst ⟨d :: ds⟩).data := by
        rw [heq]
      simp only [jsToLower, capFirst, List.map_cons] at hlist
      have hhead : Char.toLower c = Char.toUpper d := by
        exact (List.cons.injEq _ _ _ _).mp hlist |>.1
      have h1 : lowerAlpha (Char.toLower c) = true := lowerAlpha_toLower_of_upper hui
      have h2 : lowerAlpha (Char.toUpper d) = false := lowerAlpha_toUpper d
      rw [hhead, h2] at h1
      exact absurd h1 (by simp)

theorem fastFst_strategy (names toks : List String) (r : RelationMatchResult)
    (h : fastFstMatch names toks = some r) : r.strategy = .fstPattern := by
  simp only [fastFstMatch] at h
  split at h
  · obtain rfl := Option.some.inj h
    rfl
  · exact absurd h (by simp)

theorem jsMapGet_eq_none {α : Type} (m : List (String × α)) (k : String)
    (h : ∀ p ∈ m, p.1 ≠ k) : jsMapGet m k = none := by
  induction m with
  | nil => rfl
  | cons p rest ih =>
    obtain ⟨k', v⟩ := p
    simp only [jsMapGet]
    rw [if_neg (h (k', v) (List.mem_cons_self _ rest))]
    exact ih (fun q hq => h q (List.mem_cons_of_mem _ hq))

theorem lowerToOriginal_foldl_stable (E : String) :
    ∀ (l : List String) (k : String),
      (∀ m ∈ l, jsToLower m = k → m = E) →
      l.foldl (fun acc m => if jsToLower m = k then some m else acc) (some E) =
        some E := by
  intro l
  induction l with
  | nil => intro k _; rfl
  | cons x xs ih =>
    intro k hall
    simp only [List.foldl_cons]
    by_cases hx : jsToLower x = k
    · rw [if_pos hx, hall x (List.mem_cons_self x xs) hx]
      exact ih k (fun m hm => hall m (List.mem_cons_of_mem x hm))
    · rw [if_neg hx]
      exact ih k (fun m hm => hall m (List.mem_cons_of_mem x hm))

theorem lowerToOriginal_self (names : List String) (E : String)
    (hmem : E ∈ names)
    (huniq : ∀ m ∈ names, jsToLower m = jsToLower E → m = E) :
    lowerToOriginal names (jsToLower E) = some E := by
  induction names with
  | nil => cases hmem
  | cons x xs ih =>
    simp only [lowerToOriginal, List.foldl_cons]
    by_cases hx : jsToLower x = jsToLower E
    · rw [if_pos hx, huniq x (List.mem_cons_self x xs) hx]
      exact lowerToOriginal_foldl_stable E xs (jsToLower E)
        (fun m hm => huniq m (List.mem_cons_of_mem x hm))
    · rw [if_neg hx]
      have hE : E ∈ xs := by
        rcases List.mem_cons.mp hmem with rfl | h
        · exact absurd rfl hx
        · exact h
      exact ih hE (fun m hm => huniq m (List.mem_cons_of_mem x hm))

theorem pfMatch_exact_of (M : MatcherState) (base cur E : String)
    (h1 : jsMapGet M.fieldToModel base = none)
    (h2 : lowerToOriginal M.modelNames (jsToLower base) = some E) :
    pfMatch M base cur = some ⟨E, 1, .exact⟩ := by
  unfold pfMatch
  simp only [h1, h2]

theorem strData_append (a b : String) : (a ++ b).data = a.data ++ b.data := rfl

theorem listPre_self_append (p q : List Char) : listPre p (p ++ q) = true := by
  induction p with
  | nil => rfl
  | cons c cs ih => simp [listPre, ih]

theorem strEndsWith_append (e suf : String) : strEndsWith (e ++ suf) suf = true := by
  simp only [strEndsWith, strData_append, List.reverse_append]
  exact listPre_self_append _ _

theorem dropRightStr_append_two (e : String) (suf : String)
    (hlen : suf.data.length = 2) : dropRightStr (e ++ suf) 2 = e := by
  simp only [dropRightStr, strData_append, List.length_append, hlen,
    Nat.add_sub_cancel]
  rw [List.take_left]

theorem ne_append_two (e suf : String) (h : suf.data.length = 2) :
    e ≠ e ++ suf := by
  intro heq
  have := congrArg (fun s => s.data.length) heq
  simp only [strData_append, List.length_append, h] at this
  omega

theorem toLower_idem (c : Char) :
    Char.toLower (Char.toLower c) = Char.toLower c := by
  by_cases h : c.toNat ≥ 65 ∧ c.toNat ≤ 90
  · have h1 : c.toLower = Char.ofNat (c.toNat + 32) := by
      rw [Char.toLower, if_pos h]
    have hv : (c.toNat + 32).isValidChar := Or.inl (by omega)
    rw [h1, Char.toLower, toNat_ofNat_valid _ hv, if_neg (by omega)]
  · have h1 : c.toLower = c := by rw [Char.toLower, if_neg h]
    rw [h1, h1]

theorem jsToLower_decapFirst (E : String) :
    jsToLower (decapFirst E) = jsToLower E := by
  obtain ⟨d⟩ := E
  cases d with
  | nil => rfl
  | cons c cs =>
    simp only [decapFirst, jsToLower, List.map_cons, toLower_idem]

/-! ## Claim theorems -/

/--
C9: when every model name begins with an ASCII uppercase letter, the
matcher never answers with the `morphological` strategy: that tier
capitalises the first character of its (lowercased, suffix-stripped) lookup
key, while every key of the lowered-name table starts with a lowercase
letter, so the lookup cannot succeed.
-/
theorem C9_morphological_unreachable :
    ∀ (M : MatcherState) (field cur : String) (r : RelationMatchResult),
      (∀ m ∈ M.modelNames, upperInitial m = true) →
      pfMatch M field cur = some r →
      r.strategy ≠ .morphological := by
  intro M field cur r hup h
  unfold pfMatch at h
  cases h1 : jsMapGet M.fieldToModel field with
  | some v =>
    simp only [h1] at h
    obtain rfl := Option.some.inj h
    simp
  | none =>
    simp only [h1] at h
    cases h2 : lowerToOriginal M.modelNames (jsToLower field) with
    | some v =>
      simp only [h2] at h
      obtain rfl := Option.some.inj h
      simp
    | none =>
      simp only [h2] at h
      cases h3 : modelTokensGet M.modelNames cur with
      | none =>
        simp only [h3] at h
        exact absurd h (by simp)
      | some curTokens =>
        simp only [h3] at h
        split at h
        · obtain rfl := Option.some.inj h
          simp
        · cases h4 : fastFstMatch M.modelNames (jsTokenize (jsToLower field)) with
          | some fst =>
            simp only [h4] at h
            obtain rfl := Option.some.inj h
            have := fastFst_strategy _ _ _ h4
            rw [this]
            simp
          | none =>
            simp only [h4] at h
            by_cases hcl : jsTrim (stripMorphSuffix (jsToLower field)) = ""
            · rw [if_neg (by simp [hcl])] at h
              obtain ⟨p, -, hp⟩ := Option.map_eq_some'.mp h
              rw [← hp]
              simp
            · rw [if_pos hcl,
                lowerToOriginal_capFirst_none M.modelNames hup _ hcl] at h
              obtain ⟨p, -, hp⟩ :=  Option.map_eq_some'.mp h
              rw [← hp]
              simp

/--
C2 counterexample: with entities `Account` and `User`, the annotation
`@relation("AccountOwner", fields: [userId], references: [id])` teaches the
matcher the learned pattern `user/userId → Account`; the field `userId` —
which names the known entity `User` — then resolves to `Account` (at the
learned-pattern tier, confidence 0.95), not to `User`.  The claim that an
`<Entity>Id` field always resolves to that entity therefore fails.
-/
theorem C2_entity_id_resolution_cx :
    "User" ∈ matcherC2.modelNames ∧
    "userId" = decapFirst "User" ++ "Id" ∧
    extractModelFromIdFieldName matcherC2 "userId" (some "Account") =
      some "Account" ∧
    pfMatch matcherC2 "userId" "Account" =
      some ⟨"Account", 95 / 100, .learnedPattern⟩ ∧
    "Account" ≠ "User" := by
  refine ⟨by with_unfolding_all decide, by decide, ?_, ?_, by decide⟩
  · with_unfolding_all decide
  · with_unfolding_all decide

/--
C2 amended: a field named exactly `<Entity>Id` (up to capitalisation of the
first letter), where `<Entity>` is a known nonempty entity name that is the
only entity with its lowercased spelling, resolves to that entity —
provided the schema-wide learned annotation patterns record no target for
the stripped base name.  The resolution then goes through the exact tier at
confidence 1.0, never the token-aligned structural-scoring tier nor the
capitalise-verbatim fallback.  (Without the learned-pattern proviso the
property fails; see the counterexample.)
-/
theorem C2_entity_id_resolution :
    ∀ (M : MatcherState) (E field cur : String),
      E ∈ M.modelNames →
      E ≠ "" →
      (field = E ++ "Id" ∨ field = decapFirst E ++ "Id") →
      (∀ p ∈ M.fieldToModel, p.1 ≠ dropRightStr field 2) →
      (∀ m ∈ M.modelNames, jsToLower m = jsToLower E → m = E) →
      extractModelFromIdFieldName M field (some cur) = some E ∧
        pfMatch M (dropRightStr field 2) cur = some ⟨E, 1, .exact⟩ := by
  intro M E field cur hmem hne hfield hlearn huniq
  have key : ∀ e : String, field = e ++ "Id" → jsToLower e = jsToLower E →
      extractModelFromIdFieldName M field (some cur) = some E ∧
        pfMatch M (dropRightStr field 2) cur = some ⟨E, 1, .exact⟩ := by
    intro e hf hlow
    have hbase : dropRightStr field 2 = e := by
      rw [hf]
      exact dropRightStr_append_two e "Id" rfl
    have hg1 : jsMapGet M.fieldToModel e = none := by
      apply jsMapGet_eq_none
      intro p hp
      have := hlearn p hp
      rwa [hbase] at this
    have hg2 : lowerToOriginal M.modelNames (jsToLower e) = some E := by
      rw [hlow]
      exact lowerToOriginal_self M.modelNames E hmem huniq
    have hpf : ∀ c, pfMatch M e c = some ⟨E, 1, .exact⟩ := fun c =>
      pfMatch_exact_of M e c E hg1 hg2
    refine ⟨?_, by rw [hbase]; exact hpf cur⟩
    unfold extractModelFromIdFieldName
    rw [hf, List.find?_cons_of_pos _ (strEndsWith_append e "Id")]
    dsimp only
    have hdr : dropRightStr (e ++ "Id") (['I', 'd'] : List Char).length = e :=
      dropRightStr_append_two e "Id" rfl
    rw [hdr, if_neg (ne_append_two e "Id" rfl), hpf]
    have hcond : (decide ((1 : ℚ) > 1 / 2) && decide (E ∈ M.modelNames)) = true := by
      rw [Bool.and_eq_true]
      exact ⟨decide_eq_true (by norm_num), decide_eq_true hmem⟩
    dsimp only
    rw [hcond]
    rfl
  obtain hf | hf := hfield
  · exact key E hf rfl
  · exact key (decapFirst E) hf (jsToLower_decapFirst E)

/-- Witness for C2's amended theorem: a clean single-entity schema. -/
theorem C2_entity_id_resolution_witness :
    extractModelFromIdFieldName ⟨["User"], [], [], noFuzzy⟩ "userId" (some "X") =
      some "User" ∧
      pfMatch ⟨["User"], [], [], noFuzzy⟩ (dropRightStr "userId" 2) "X" =
        some ⟨"User", 1, .exact⟩ :=
  C2_entity_id_resolution ⟨["User"], [], [], noFuzzy⟩ "User" "userId" "X"
    (by decide) (by decide) (Or.inr (by decide)) (by decide) (by decide)

theorem find?_isRel_append (l : List PrismaFieldAttribute) (rel : PrismaRelation)
    (h : l.find? PrismaFieldAttribute.isRel = none) :
    (l ++ [PrismaFieldAttribute.Relation rel]).find? PrismaFieldAttribute.isRel =
      some (.Relation rel) := by
  induction l with
  | nil => rfl
  | cons a l ih =>
    by_cases ha : a.isRel = true
    · rw [List.find?_cons_of_pos _ ha] at h
      exact absurd h (by simp)
    · rw [List.find?_cons_of_neg _ ha] at h
      rw [List.cons_append, List.find?_cons_of_neg _ ha]
      exact ih h

theorem find?_isRel_replace (l : List PrismaFieldAttribute) (rel : PrismaRelation)
    (h : (l.find? PrismaFieldAttribute.isRel).isSome = true) :
    (l.map (fun a => if a.isRel then PrismaFieldAttribute.Relation rel else a)).find?
        PrismaFieldAttribute.isRel = some (.Relation rel) := by
  induction l with
  | nil => simp [List.find?] at h
  | cons a l ih =>
    by_cases ha : a.isRel = true
    · simp only [List.map_cons, if_pos ha]
      rw [List.find?_cons_of_pos _ (by rfl)]
    · simp only [List.map_cons, if_neg ha]
      rw [List.find?_cons_of_neg _ ha]
      rw [List.find?_cons_of_neg _ ha] at h
      exact ih h

theorem rebuild_find (f : PrismaField) (rel : PrismaRelation) (isNew : Bool)
    (h : if isNew then f.attributes.find? PrismaFieldAttribute.isRel = none
      else (f.attributes.find? PrismaFieldAttribute.isRel).isSome = true) :
    (rebuildWithRel f rel isNew).attributes.find? PrismaFieldAttribute.isRel =
      some (.Relation rel) := by
  cases isNew with
  | true =>
    simp only [rebuildWithRel, if_true]
    exact find?_isRel_append _ _ h
  | false =>
    simp only [rebuildWithRel, Bool.false_eq_true, if_false]
    exact find?_isRel_replace _ _ h

theorem relKeysOf_rebuild (f : PrismaField) (rel : PrismaRelation) (isNew : Bool)
    (h : if isNew then f.attributes.find? PrismaFieldAttribute.isRel = none
      else (f.attributes.find? PrismaFieldAttribute.isRel).isSome = true) :
    relKeysOf (rebuildWithRel f rel isNew) = some (rel.fields, rel.references) := by
  rw [relKeysOf, rebuild_find f rel isNew h]

theorem relNameOf_rebuild (f : PrismaField) (rel : PrismaRelation) (isNew : Bool)
    (h : if isNew then f.attributes.find? PrismaFieldAttribute.isRel = none
      else (f.attributes.find? PrismaFieldAttribute.isRel).isSome = true) :
    relNameOf (rebuildWithRel f rel isNew) = some rel.name := by
  rw [relNameOf, rebuild_find f rel isNew h]

theorem pass1Field_assigns (mm : List PrismaModel) (m : PrismaModel)
    (f fk : PrismaField) (T : String)
    (ht : f.type = .model T)
    (hrel : f.attributes.find? PrismaFieldAttribute.isRel = none ∨
      ∃ r, f.attributes.find? PrismaFieldAttribute.isRel = some (.Relation r) ∧
        r.fields = [] ∧ r.references = [])
    (hfk : findFkFieldForRelation f.name m = some fk)
    (hcond : T = m.name ∨ f.modifiers.isList = false) :
    relKeysOf (pass1Field mm m f).1 = some ([fk.name], ["id"]) ∧
    (f.modifiers.isList = false →
      ∀ tm bf, modelMapGet mm T = some tm →
        tm.fields.find? (fun g => typeIsModel g.type m.name) = some bf →
        bf.modifiers.isList = false → (pass1Field mm m f).2 = some fk.name) := by
  have hcond2 : (decide (T = m.name) || decide ¬(f.modifiers.isList = true)) = true := by
    rcases hcond with h | h
    · simp [h]
    · simp [h]
  unfold pass1Field
  rw [ht]
  dsimp only
  rw [hfk]
  rcases hrel with hnone | ⟨r, hsome, hrf, hrr⟩
  · rw [hnone]
    dsimp only
    by_cases hn : (decide (T = m.name) && strFalsy (some "")) = true
    · rw [if_pos hn]
      rw [if_neg (by decide :
        ¬((decide (([] : List String) ≠ []) || decide (([] : List String) ≠ [])) = true))]
      rw [if_pos hcond2]
      dsimp only
      constructor
      · exact relKeysOf_rebuild f _ true hnone
      · intro hlist tm bf htm hbf hbl
        rw [if_pos (by simp [hlist]), htm]
        dsimp only
        rw [hbf]
        dsimp only
        rw [if_pos (by simp [hbl])]
    · rw [if_neg hn]
      rw [if_neg (by decide :
        ¬((decide (([] : List String) ≠ []) || decide (([] : List String) ≠ [])) = true))]
      rw [if_pos hcond2]
      dsimp only
      constructor
      · exact relKeysOf_rebuild f _ true hnone
      · intro hlist tm bf htm hbf hbl
        rw [if_pos (by simp [hlist]), htm]
        dsimp only
        rw [hbf]
        dsimp only
        rw [if_pos (by simp [hbl])]
  · rw [hsome]
    dsimp only
    have hs : (f.attributes.find? PrismaFieldAttribute.isRel).isSome = true := by
      rw [hsome]; rfl
    by_cases hn : (decide (T = m.name) && strFalsy r.name) = true
    · rw [if_pos hn]
      dsimp only
      rw [hrf, hrr]
      rw [if_neg (by decide :
        ¬((decide (([] : List String) ≠ []) || decide (([] : List String) ≠ [])) = true))]
      rw [if_pos hcond2]
      dsimp only
      constructor
      · exact relKeysOf_rebuild f _ false hs
      · intro hlist tm bf htm hbf hbl
        rw [if_pos (by simp [hlist]), htm]
        dsimp only
        rw [hbf]
        dsimp only
        rw [if_pos (by simp [hbl])]
    · rw [if_neg hn]
      rw [hrf, hrr]
      rw [if_neg (by decide :
        ¬((decide (([] : List String) ≠ []) || decide (([] : List String) ≠ [])) = true))]
      rw [if_pos hcond2]
      dsimp only
      constructor
      · exact relKeysOf_rebuild f _ false hs
      · intro hlist tm bf htm hbf hbl
        rw [if_pos (by simp [hlist]), htm]
        dsimp only
        rw [hbf]
        dsimp only
        rw [if_pos (by simp [hbl])]

theorem rebuildWithRel_name (f : PrismaField) (rel : PrismaRelation) (b : Bool) :
    (rebuildWithRel f rel b).name = f.name := by
  cases b <;> rfl

theorem pass1Field_fst_name (mm : List PrismaModel) (m : PrismaModel)
    (g : PrismaField) : (pass1Field mm m g).1.name = g.name := by
  unfold pass1Field
  rcases hg : g.type with s | n | n
  · rfl
  · rfl
  · dsimp only
    repeat' split
    all_goals simp [rebuildWithRel_name]

theorem find?_isRel_append_unique (l : List PrismaFieldAttribute) :
    (l ++ [PrismaFieldAttribute.Unique]).find? PrismaFieldAttribute.isRel =
      l.find? PrismaFieldAttribute.isRel := by
  induction l with
  | nil => rfl
  | cons a l ih =>
    by_cases ha : a.isRel = true
    · rw [List.cons_append, List.find?_cons_of_pos _ ha, List.find?_cons_of_pos _ ha]
    · rw [List.cons_append, List.find?_cons_of_neg _ ha, List.find?_cons_of_neg _ ha]
      exact ih

/-- The unique-marking step of the first pass preserves the relation key
lists. -/
theorem relKeysOf_markUnique (uniq : List String) (g : PrismaField) :
    relKeysOf (markUnique uniq g) = relKeysOf g := by
  unfold markUnique
  by_cases h1 : g.name ∈ uniq
  · rw [if_pos h1]
    by_cases h2 : g.attributes.any (· = .Unique) = true
    · rw [if_pos h2]
    · rw [if_neg h2]
      simp only [relKeysOf, find?_isRel_append_unique]
  · rw [if_neg h1]

theorem relNameOf_markUnique (uniq : List String) (g : PrismaField) :
    relNameOf (markUnique uniq g) = relNameOf g := by
  unfold markUnique
  by_cases h1 : g.name ∈ uniq
  · rw [if_pos h1]
    by_cases h2 : g.attributes.any (· = .Unique) = true
    · rw [if_pos h2]
    · rw [if_neg h2]
      simp only [relNameOf, find?_isRel_append_unique]
  · rw [if_neg h1]

theorem markUnique_name (uniq : List String) (g : PrismaField) :
    (markUnique uniq g).name = g.name := by
  unfold markUnique
  by_cases h1 : g.name ∈ uniq
  · rw [if_pos h1]
    by_cases h2 : g.attributes.any (· = .Unique) = true
    · rw [if_pos h2]
    · rw [if_neg h2]
  · rw [if_neg h1]

theorem markUnique_mem_unique (uniq : List String) (g : PrismaField)
    (h : g.name ∈ uniq) :
    PrismaFieldAttribute.Unique ∈ (markUnique uniq g).attributes := by
  unfold markUnique
  rw [if_pos h]
  by_cases h2 : g.attributes.any (· = .Unique) = true
  · rw [if_pos h2]
    obtain ⟨a, ha, hae⟩ := List.any_eq_true.mp h2
    obtain rfl := of_decide_eq_true hae
    exact ha
  · rw [if_neg h2]
    simp

theorem pass1Model_get (mm : List PrismaModel) (m : PrismaModel) (i : Nat) :
    (pass1Model mm m).fields.get? i =
      (m.fields.get? i).map (fun f =>
        markUnique ((m.fields.map (pass1Field mm m)).filterMap (·.2))
          (pass1Field mm m f).1) := by
  simp only [pass1Model, List.get?_eq_getElem?, List.getElem?_map, Option.map_map]
  cases hi : m.fields[i]? <;> rfl

theorem pass1Model_fields_eq (mm : List PrismaModel) (m : PrismaModel) :
    (pass1Model mm m).fields =
      m.fields.map (fun f =>
        markUnique ((m.fields.map (pass1Field mm m)).filterMap (·.2))
          (pass1Field mm m f).1) := by
  simp only [pass1Model, List.map_map]
  rfl

/--
C7 amended: in the key-inference pass, a relation field with empty
fields/references lists whose owner contains a sibling named
`<field>` + one of `Id|ID|_id|_ID` receives that sibling as sole local key
with referenced key `["id"]` — provided the relation is a self-relation or
the relation field is not list-typed (the pass skips foreign-key inference
for list-typed non-self relation fields); and when additionally the
relation is to-one on both sides (this field and the target model's back
field are both non-list), the discovered foreign-key field receives a
unique marker.
-/
theorem C7_key_inference :
    ∀ (mm : List PrismaModel) (m : PrismaModel) (i : Nat) (f fk : PrismaField)
      (T : String),
      m.fields.get? i = some f →
      f.type = .model T →
      (f.attributes.find? PrismaFieldAttribute.isRel = none ∨
        ∃ r, f.attributes.find? PrismaFieldAttribute.isRel = some (.Relation r) ∧
          r.fields = [] ∧ r.references = []) →
      findFkFieldForRelation f.name m = some fk →
      (T = m.name ∨ f.modifiers.isList = false) →
      (∃ f', (pass1Model mm m).fields.get? i = some f' ∧
          relKeysOf f' = some ([fk.name], ["id"])) ∧
      (f.modifiers.isList = false →
        ∀ tm bf, modelMapGet mm T = some tm →
          tm.fields.find? (fun g => typeIsModel g.type m.name) = some bf →
          bf.modifiers.isList = false →
          ∃ g, g ∈ (pass1Model mm m).fields ∧ g.name = fk.name ∧
            PrismaFieldAttribute.Unique ∈ g.attributes) := by
  intro mm m i f fk T hget ht hrel hfk hcond
  obtain ⟨hkeys, huniqf⟩ := pass1Field_assigns mm m f fk T ht hrel hfk hcond
  constructor
  · have h1 := pass1Model_get mm m i
    rw [hget] at h1
    simp only [Option.map_some'] at h1
    refine ⟨_, h1, ?_⟩
    dsimp only
    rw [relKeysOf_markUnique]
    exact hkeys
  · intro hlist tm bf htm hbf hbl
    have h2 := huniqf hlist tm bf htm hbf hbl
    have hfkmem : fk ∈ m.fields := by
      apply List.mem_of_find?_eq_some
      simpa [findFkFieldForRelation] using hfk
    have hfmem : f ∈ m.fields := by
      apply List.get?_mem hget
    have hin : fk.name ∈ (m.fields.map (pass1Field mm m)).filterMap (·.2) := by
      apply List.mem_filterMap.mpr
      exact ⟨pass1Field mm m f, List.mem_map.mpr ⟨f, hfmem, rfl⟩, h2⟩
    refine ⟨markUnique ((m.fields.map (pass1Field mm m)).filterMap (·.2))
        (pass1Field mm m fk).1, ?_, ?_, ?_⟩
    · rw [pass1Model_fields_eq]
      exact List.mem_map.mpr ⟨fk, hfkmem, rfl⟩
    · rw [markUnique_name]
      exact pass1Field_fst_name mm m fk
    · apply markUnique_mem_unique
      rw [pass1Field_fst_name mm m fk]
      exact hin

/--
C7 counterexample: a list-typed, non-self relation field (`Post.tags :
Tag[]` with relation `PostTags` and empty key lists) whose owner has a
sibling `tagsId`: the key-inference pass leaves the model unchanged — the
sibling is not assigned as local key — because the pass only infers keys
for self-relations or non-list fields.  This refutes the unconditional
claim.
-/
theorem C7_key_inference_cx :
    pass1Model [postModelC7, tagModelC7] postModelC7 = postModelC7 ∧
    (findFkFieldForRelation "tags" postModelC7).isSome = true ∧
    ((pass1Model [postModelC7, tagModelC7] postModelC7).fields.get? 0).map
        relKeysOf = some (some ([], [])) := by
  refine ⟨by decide, by decide, by decide⟩

/-- Witness for C7's amended theorem: a concrete one-to-one relation whose
foreign key is discovered and marked unique. -/
theorem C7_key_inference_witness :
    (∃ f', (pass1Model [profileModelW, userModel2W] profileModelW).fields.get? 0 =
        some f' ∧ relKeysOf f' = some (["userId"], ["id"])) ∧
    (∃ g, g ∈ (pass1Model [profileModelW, userModel2W] profileModelW).fields ∧
        g.name = "userId" ∧ PrismaFieldAttribute.Unique ∈ g.attributes) := by
  have h := C7_key_inference [profileModelW, userModel2W] profileModelW 0
    profileUserFieldW profileUserIdFieldW "User" (by decide) rfl
    (Or.inr ⟨{ name := some "UserProfile", fields := [], references := [] },
      by decide, rfl, rfl⟩)
    (by decide) (Or.inr rfl)
  exact ⟨h.1, h.2 rfl userModel2W userProfileFieldW (by decide) (by decide) rfl⟩

/-- Witness for C9 at a concrete uppercase-named schema. -/
theorem C9_morphological_unreachable_witness :
    pfMatch ⟨["User"], [], [], noFuzzy⟩ "user" "User" =
      some ⟨"User", 1, .exact⟩ ∧
      RelationMatchResult.strategy ⟨"User", 1, .exact⟩ ≠ .morphological :=
  ⟨rfl,
    C9_morphological_unreachable ⟨["User"], [], [], noFuzzy⟩ "user" "User"
      ⟨"User", 1, .exact⟩ (by decide) rfl⟩

/--
C4: the reverse transform is deterministic in the two-run sense: equal
validation-schema inputs give equal output trees under `zodToPrisma`, and
the relation matcher produces equal results (target, confidence and
strategy included) on equal queries.  The embedding makes the source's
purity structural: the transform holds no state across invocations — the
matcher tables are rebuilt from the input on every call — so run-to-run
equality is function application applied to equal arguments.
-/
theorem C4_determinism :
    (∀ (fuzzy : String → List (String × ℚ)) (z w : ZodSchemaT),
        z = w → zodToPrisma fuzzy z = zodToPrisma fuzzy w) ∧
    (∀ (M : MatcherState) (f g c d : String),
        f = g → c = d → pfMatch M f c = pfMatch M g d) :=
  ⟨fun _ _ _ h => by rw [h], fun _ _ _ _ _ h1 h2 => by rw [h1, h2]⟩

/-- Witness for C4 at a concrete schema and matcher query. -/
theorem C4_determinism_witness :
    zodToPrisma noFuzzy zsC1 = zodToPrisma noFuzzy zsC1 ∧
      pfMatch matcherC2 "userId" "Account" = pfMatch matcherC2 "userId" "Account" :=
  ⟨C4_determinism.1 noFuzzy zsC1 zsC1 rfl,
    C4_determinism.2 matcherC2 "userId" "userId" "Account" "Account" rfl rfl⟩

/--
C5: the reverse scalar mapping `mapType` sends a number leaf without the
integer refinement to `Float` (with it, to `Int`), a non-empty union to the
mapped type of its first option, and the `unknown`, `null`, `undefined`,
`NaN`, tuple and record leaves all to `Json`.
-/
theorem C5_reverse_scalar_mapping :
    (∀ vs, NumberValidation.Int ∉ vs → mapType (.ZodNumber vs) = .scalar "Float") ∧
    (∀ vs, NumberValidation.Int ∈ vs → mapType (.ZodNumber vs) = .scalar "Int") ∧
    (∀ o os, mapType (.ZodUnion (o :: os)) = mapType o) ∧
    mapType .ZodUnknown = .scalar "Json" ∧
    mapType .ZodNull = .scalar "Json" ∧
    mapType .ZodUndefined = .scalar "Json" ∧
    mapType .ZodNaN = .scalar "Json" ∧
    (∀ items, mapType (.ZodTuple items) = .scalar "Json") ∧
    (∀ k v, mapType (.ZodRecord k v) = .scalar "Json") := by
  refine ⟨fun vs h => ?_, fun vs h => ?_, fun o os => rfl, rfl, rfl, rfl, rfl,
    fun items => rfl, fun k v => rfl⟩
  · simp [mapType, hasInt_eq_false h]
  · simp [mapType, (hasInt_iff vs).mpr h]

/-- Witness for C5 at concrete validation lists. -/
theorem C5_reverse_scalar_mapping_witness :
    mapType (.ZodNumber [.Min 0]) = .scalar "Float" ∧
      mapType (.ZodNumber [.Int]) = .scalar "Int" ∧
      mapType (.ZodUnion [.ZodBoolean, .ZodDate]) = .scalar "Boolean" :=
  ⟨C5_reverse_scalar_mapping.1 [.Min 0] (by decide),
    C5_reverse_scalar_mapping.2.1 [.Int] (by decide),
    C5_reverse_scalar_mapping.2.2.1 .ZodBoolean [.ZodDate]⟩

/--
C6: round trip on the floating-point scalar: a number leaf without the
integer refinement reverse-maps to `Float`; `Float` forward-maps (via
`PRISMA_TO_ZOD_MAP`) to a number leaf with the empty validation list; and
composing the two directions starting from either side of this pair is the
identity on the type.
-/
theorem C6_float_roundtrip :
    (∀ vs, NumberValidation.Int ∉ vs → mapType (.ZodNumber vs) = .scalar "Float") ∧
    prismaTypeToZodType (.scalar "Float") = .ZodNumber [] ∧
    mapType (prismaTypeToZodType (.scalar "Float")) = .scalar "Float" ∧
    prismaTypeToZodType (mapType (.ZodNumber [])) = .ZodNumber [] := by
  refine ⟨fun vs h => ?_, rfl, rfl, rfl⟩
  simp [mapType, hasInt_eq_false h]

/-- Witness for C6 at a concrete validation list. -/
theorem C6_float_roundtrip_witness :
    mapType (.ZodNumber [.Positive]) = .scalar "Float" :=
  C6_float_roundtrip.1 [.Positive] (by decide)

/--
C10: a defaulted layer whose default value is not a string, number or
boolean (e.g. `null`, `undefined`, an object, an array, a date) contributes
no `Default` attribute — the default is silently discarded — and the field
is otherwise transformed exactly as if the defaulted layer carried no
default: the result equals the transform of the same field with the layer
replaced by its inner type.
-/
theorem C10_nonscalar_default_discarded :
    ∀ (M : MatcherState) (nm : String) (inner : ZodType) (d : JsVal)
      (doc : Option String) (cur : String) (allFields : List ZodField),
      d.isScalar = false →
      zodFieldToPrismaField M ⟨nm, .ZodDefault inner d, doc⟩ cur allFields =
        zodFieldToPrismaField M ⟨nm, inner, doc⟩ cur allFields := by
  intro M nm inner d doc cur allFields h
  have hu : unwrapZod (.ZodDefault inner d) false false [] =
      unwrapZod inner false false [] := by
    simp [unwrapZod, h]
  simp only [zodFieldToPrismaField, hu]

/-- Witness for C10: an object-like default on a boolean field. -/
theorem C10_nonscalar_default_discarded_witness :
    JsVal.isScalar .objLike = false ∧
      zodFieldToPrismaField ⟨["A"], [], [], noFuzzy⟩
          ⟨"x", .ZodDefault .ZodBoolean .objLike, none⟩ "A" [] =
        zodFieldToPrismaField ⟨["A"], [], [], noFuzzy⟩ ⟨"x", .ZodBoolean, none⟩ "A" [] :=
  ⟨rfl,
    C10_nonscalar_default_discarded ⟨["A"], [], [], noFuzzy⟩ "x" .ZodBoolean
      .objLike none "A" [] rfl⟩

/--
C3 counterexample: on a schema with two empty models, `validate` collects
both problems but fails with only the first collected error — the failure
value carries one `InvalidModelError`, not the batch of two, so a caller
does not see every problem in one pass.  This refutes the claim that the
operation "fails with the complete batch of collected errors rather than
with only the first offense".
-/
theorem C3_batch_failure_cx :
    validationErrors schemaC3 =
      [⟨"A", "Model has no fields"⟩, ⟨"B", "Model has no fields"⟩] ∧
    validate schemaC3 = .error ⟨"A", "Model has no fields"⟩ ∧
    (⟨"A", "Model has no fields"⟩ : InvalidModelError) ≠
      ⟨"B", "Model has no fields"⟩ :=
  ⟨rfl, rfl, by decide⟩

/--
C3 amended: the pre-transformation validate operation does examine the
whole schema — it succeeds exactly when no model is empty, no model has a
duplicate field name and no enum is empty — but when problems exist it
fails with only the first collected error, not the complete batch.
-/
theorem C3_validate_first_error :
    ∀ s : PrismaSchema,
      (validate s = .ok () ↔ schemaWellFormed s) ∧
        (∀ e, validate s = .error e ↔ (validationErrors s).head? = some e) := by
  intro s
  cases hv : validationErrors s with
  | nil =>
    constructor
    · rw [show validate s = .ok () by simp [validate, hv]]
      simp only [true_iff]
      exact (validationErrors_eq_nil s).mp hv
    · intro e
      rw [show validate s = .ok () by simp [validate, hv]]
      simp [hv]
  | cons e0 rest =>
    constructor
    · rw [show validate s = .error e0 by simp [validate, hv]]
      constructor
      · intro h
        exact absurd h (by simp)
      · intro hwf
        have := (validationErrors_eq_nil s).mpr hwf
        rw [hv] at this
        exact absurd this (by simp)
    · intro e
      rw [show validate s = .error e0 by simp [validate, hv]]
      simp [hv, eq_comm]

/-- Witness for C3's amended theorem at concrete schemas. -/
theorem C3_validate_first_error_witness :
    validate ⟨[], []⟩ = .ok () ∧
      validate schemaC3 = .error ⟨"A", "Model has no fields"⟩ :=
  ⟨(C3_validate_first_error ⟨[], []⟩).1.mpr ⟨by simp, by simp⟩,
    ((C3_validate_first_error schemaC3).2 ⟨"A", "Model has no fields"⟩).mpr rfl⟩

theorem rebuildWithRel_type (f : PrismaField) (rel : PrismaRelation) (b : Bool) :
    (rebuildWithRel f rel b).type = f.type := by
  cases b <;> rfl

theorem pass1Field_fst_type (mm : List PrismaModel) (m : PrismaModel)
    (g : PrismaField) : (pass1Field mm m g).1.type = g.type := by
  unfold pass1Field
  rcases hg : g.type with s | n | n
  · exact hg
  · exact hg
  · dsimp only
    repeat' split
    all_goals simp [rebuildWithRel_type, hg]

theorem markUnique_type (uniq : List String) (g : PrismaField) :
    (markUnique uniq g).type = g.type := by
  unfold markUnique
  by_cases h1 : g.name ∈ uniq
  · rw [if_pos h1]
    by_cases h2 : g.attributes.any (· = .Unique) = true
    · rw [if_pos h2]
    · rw [if_neg h2]
  · rw [if_neg h1]

/-- In the first pass, a self-referential relation field whose relation
name is absent or empty gets the synthesized name `<Model>To<Model>`. -/
theorem pass1Field_self_assigned (mm : List PrismaModel) (m : PrismaModel)
    (f : PrismaField)
    (ht : f.type = .model m.name)
    (hfalsy : fieldRelNameFalsy f = true) :
    relNameOf (pass1Field mm m f).1 =
      some (some (m.name ++ "To" ++ m.name)) := by
  unfold pass1Field
  rw [ht]
  dsimp only
  cases hfound : f.attributes.find? PrismaFieldAttribute.isRel with
  | none =>
    dsimp only
    have hA : (decide (m.name = m.name) && strFalsy (some "")) = true := by
      simp [strFalsy]
    simp only [hA, Option.isNone_none, Bool.true_or, Bool.or_true, if_true,
      eq_self_iff_true]
    repeat' split
    all_goals first
      | exact relNameOf_rebuild f _ true hfound
      | simp_all
  | some a =>
    cases a with
    | Relation r =>
      dsimp only
      have hs : (f.attributes.find? PrismaFieldAttribute.isRel).isSome = true := by
        rw [hfound]; rfl
      have hfr : strFalsy r.name = true := by
        unfold fieldRelNameFalsy at hfalsy
        rw [hfound] at hfalsy
        exact hfalsy
      have hA : (decide (m.name = m.name) && strFalsy r.name) = true := by
        simp [hfr]
      simp only [hA, Option.isNone_some, Bool.false_or, Bool.or_true, if_true,
        eq_self_iff_true]
      repeat' split
      all_goals first
        | exact relNameOf_rebuild f _ false hs
        | simp_all
    | Default v =>
      exact absurd hfound (by
        intro hc
        have := List.find?_some hc
        simp [PrismaFieldAttribute.isRel] at this)
    | Unique =>
      exact absurd hfound (by
        intro hc
        have := List.find?_some hc
        simp [PrismaFieldAttribute.isRel] at this)
    | Id =>
      exact absurd hfound (by
        intro hc
        have := List.find?_some hc
        simp [PrismaFieldAttribute.isRel] at this)
    | UpdatedAt =>
      exact absurd hfound (by
        intro hc
        have := List.find?_some hc
        simp [PrismaFieldAttribute.isRel] at this)
    | Ignore =>
      exact absurd hfound (by
        intro hc
        have := List.find?_some hc
        simp [PrismaFieldAttribute.isRel] at this)
    | Map nm =>
      exact absurd hfound (by
        intro hc
        have := List.find?_some hc
        simp [PrismaFieldAttribute.isRel] at this)
    | Native v =>
      exact absurd hfound (by
        intro hc
        have := List.find?_some hc
        simp [PrismaFieldAttribute.isRel] at this)

theorem appendTo_ne_empty (a b : String) : a ++ "To" ++ b ≠ "" := by
  intro h
  have := congrArg (fun s => s.data.length) h
  simp only [strData_append, List.length_append] at this
  have h2 : ("To" : String).data.length = 2 := rfl
  rw [h2] at this
  simp at this

theorem pass1Field_self_keeps (mm : List PrismaModel) (m : PrismaModel)
    (f : PrismaField) (r : PrismaRelation)
    (ht : f.type = .model m.name)
    (hfound : f.attributes.find? PrismaFieldAttribute.isRel =
      some (.Relation r))
    (hnf : strFalsy r.name = false) :
    relNameOf (pass1Field mm m f).1 = some r.name := by
  have hs : (f.attributes.find? PrismaFieldAttribute.isRel).isSome = true := by
    rw [hfound]; rfl
  have hself : relNameOf f = some r.name := by rw [relNameOf, hfound]
  unfold pass1Field
  rw [ht]
  dsimp only
  rw [hfound]
  dsimp only
  have hB : (decide (m.name = m.name) && strFalsy r.name) = false := by
    simp [hnf]
  simp only [hB, Option.isNone_some, Bool.false_or, Bool.or_false]
  repeat' split
  all_goals first
    | exact hself
    | exact relNameOf_rebuild f _ false hs
    | simp_all

theorem typeIsModel_eq {t : PrismaFieldType} {n : String}
    (h : typeIsModel t n = true) : t = .model n := by
  cases t with
  | scalar s => simp [typeIsModel] at h
  | enum e => simp [typeIsModel] at h
  | model mn =>
    simp only [typeIsModel, decide_eq_true_eq] at h
    rw [h]

/-- Every self-referential relation field in the output of the first pass
carries a relation attribute with a non-empty name. -/
theorem pass1_self_named (mm : List PrismaModel) (m : PrismaModel)
    (f' : PrismaField) (hmem : f' ∈ (pass1Model mm m).fields)
    (ht : typeIsModel f'.type m.name = true) :
    ∃ n, relNameOf f' = some (some n) ∧ n ≠ "" := by
  rw [pass1Model_fields_eq] at hmem
  obtain ⟨g, hg, rfl⟩ := List.mem_map.mp hmem
  rw [relNameOf_markUnique]
  have htype : g.type = .model m.name := by
    have h1 : typeIsModel g.type m.name = true := by
      rw [← pass1Field_fst_type mm m g, ← markUnique_type
        ((m.fields.map (pass1Field mm m)).filterMap (·.2)) (pass1Field mm m g).1]
      exact ht
    exact typeIsModel_eq h1
  by_cases hfal : fieldRelNameFalsy g = true
  · exact ⟨m.name ++ "To" ++ m.name,
      pass1Field_self_assigned mm m g htype hfal,
      appendTo_ne_empty m.name m.name⟩
  · have hexists : ∃ r, g.attributes.find? PrismaFieldAttribute.isRel =
        some (.Relation r) ∧ strFalsy r.name = false := by
      unfold fieldRelNameFalsy at hfal
      cases hfind : g.attributes.find? PrismaFieldAttribute.isRel with
      | none => rw [hfind] at hfal; simp at hfal
      | some a =>
        rw [hfind] at hfal
        cases a with
        | Relation r =>
          refine ⟨r, rfl, ?_⟩
          cases hsf : strFalsy r.name with
          | true => exact absurd hsf hfal
          | false => rfl
        | Default v => simp at hfal
        | Unique => simp at hfal
        | Id => simp at hfal
        | UpdatedAt => simp at hfal
        | Ignore => simp at hfal
        | Map nm => simp at hfal
        | Native v => simp at hfal
    obtain ⟨r, hfind, hnf⟩ := hexists
    have hname : ∃ n, r.name = some n ∧ n ≠ "" := by
      cases hrn : r.name with
      | none => rw [hrn] at hnf; simp [strFalsy] at hnf
      | some n =>
        refine ⟨n, rfl, ?_⟩
        rw [hrn] at hnf
        simp [strFalsy] at hnf
        exact hnf
    obtain ⟨n, hrn, hne⟩ := hname
    refine ⟨n, ?_, hne⟩
    rw [pass1Field_self_keeps mm m g r htype hfind hnf, hrn]

/-- C8: in the relation-enrichment pass of the reverse transform
(`pass1Model`, embedding zod-parser.ts lines 1601-1607), a field whose
resolved target model equals its owning model and whose relation carries no
explicit name (absent or empty) is assigned the synthesized relation name
`<Model>To<Model>` — the owning model's name, the literal `To`, the owning
model's name — and this name is non-empty; moreover every self-typed field
of the pass-1 output carries some non-empty relation name.  Stability across
repeated runs is immediate since the transform is a pure function of its
input. -/
theorem C8_self_relation_name (mm : List PrismaModel) (m : PrismaModel)
    (i : Nat) (f : PrismaField)
    (hf : m.fields.get? i = some f)
    (ht : f.type = .model m.name)
    (hnoname : fieldRelNameFalsy f = true) :
    (∃ f', (pass1Model mm m).fields.get? i = some f' ∧
       relNameOf f' = some (some (m.name ++ "To" ++ m.name)) ∧
       m.name ++ "To" ++ m.name ≠ "") ∧
    (∀ f' ∈ (pass1Model mm m).fields, typeIsModel f'.type m.name = true →
       ∃ n, relNameOf f' = some (some n) ∧ n ≠ "") := by
  constructor
  · refine ⟨markUnique ((m.fields.map (pass1Field mm m)).filterMap (·.2))
      (pass1Field mm m f).1, ?_, ?_, appendTo_ne_empty m.name m.name⟩
    · rw [pass1Model_get, hf]
      rfl
    · rw [relNameOf_markUnique]
      exact pass1Field_self_assigned mm m f ht hnoname
  · intro f' hmem ht'
    exact pass1_self_named mm m f' hmem ht'

/-- Witness for C8 at a concrete one-field self-relation model. -/
theorem C8_self_relation_name_witness :
    catModelW.fields.get? 0 = some parentFieldW ∧
    parentFieldW.type = .model catModelW.name ∧
    fieldRelNameFalsy parentFieldW = true ∧
    (∃ f', (pass1Model [catModelW] catModelW).fields.get? 0 = some f' ∧
       relNameOf f' = some (some (catModelW.name ++ "To" ++ catModelW.name)) ∧
       catModelW.name ++ "To" ++ catModelW.name ≠ "") :=
  ⟨rfl, rfl, rfl,
    (C8_self_relation_name [catModelW] catModelW 0 parentFieldW rfl rfl
      rfl).1⟩

theorem jsMapGet_set {α : Type} (m : List (String × α)) (k : String) (v : α)
    (T : String) :
    jsMapGet (jsMapSet m k v) T = if k = T then some v else jsMapGet m T := by
  induction m with
  | nil => simp [jsMapSet, jsMapGet]
  | cons hd tl ih =>
    obtain ⟨a, b⟩ := hd
    by_cases hak : a = k
    · subst hak
      simp only [jsMapSet, if_pos rfl, jsMapGet]
      by_cases hT : a = T <;> simp [hT]
    · simp only [jsMapSet, if_neg hak, jsMapGet, ih]
      by_cases hT : a = T
      · have hkT : ¬ (k = T) := fun h => hak (hT ▸ h ▸ rfl)
        simp [hT, hkT]
      · simp [hT]

theorem foldl_preserves {σ α : Type} (P : σ → Prop) (f : σ → α → σ)
    (hstep : ∀ s a, P s → P (f s a)) :
    ∀ (l : List α) (s : σ), P s → P (l.foldl f s)
  | [], _, hs => hs
  | x :: xs, s, hs => foldl_preserves P f hstep xs (f s x) (hstep s x hs)

theorem bucket_step (nf : List (String × List PrismaField)) (tname w : String)
    (bf : PrismaField)
    (h : ∀ T fl, jsMapGet nf T = some fl →
      (fl.map (fun g => g.type.nameOf)).Nodup ∧ ∀ g ∈ fl, backFieldOk g)
    (hok : backFieldOk bf)
    (htype : bf.type.nameOf = some w)
    (hnew : ((jsMapGet nf tname).getD []).any
        (fun f => f.type.nameOf = some w) = false)
    (T : String) (fl : List PrismaField)
    (hget : jsMapGet (jsMapSet nf tname
        (((jsMapGet nf tname).getD []) ++ [bf])) T = some fl) :
    (fl.map (fun g => g.type.nameOf)).Nodup ∧ ∀ g ∈ fl, backFieldOk g := by
  rw [jsMapGet_set] at hget
  by_cases hT : tname = T
  · rw [if_pos hT] at hget
    injection hget with hfl
    subst hfl
    cases hold : jsMapGet nf tname with
    | none =>
      simp only [Option.getD_none, List.nil_append]
      refine ⟨by simp, ?_⟩
      intro g hg
      rw [List.mem_singleton] at hg
      exact hg ▸ hok
    | some old =>
      rw [hold] at hnew
      simp only [Option.getD_some] at hnew ⊢
      obtain ⟨hnd, hprops⟩ := h tname old hold
      constructor
      · rw [List.map_append]
        apply List.Nodup.append hnd (by simp)
        intro x hx1 hx2
        rw [List.mem_map] at hx1
        obtain ⟨g, hg, rfl⟩ := hx1
        simp only [List.map_cons, List.map_nil, List.mem_singleton] at hx2
        have hgw := List.any_eq_false.mp hnew g hg
        rw [htype] at hx2
        simp only [decide_eq_true_eq] at hgw
        exact hgw hx2
      · intro g hg
        rcases List.mem_append.mp hg with hgo | hgb
        · exact hprops g hgo
        · rw [List.mem_singleton] at hgb
          exact hgb ▸ hok
  · rw [if_neg hT] at hget
    exact h T fl hget

theorem synthField_preserves (mm ms : List PrismaModel) (model : PrismaModel)
    (nf : List (String × List PrismaField)) (field : PrismaField)
    (h : ∀ T fl, jsMapGet nf T = some fl →
      (fl.map (fun g => g.type.nameOf)).Nodup ∧ ∀ g ∈ fl, backFieldOk g) :
    ∀ T fl, jsMapGet (synthField mm ms model nf field) T = some fl →
      (fl.map (fun g => g.type.nameOf)).Nodup ∧ ∀ g ∈ fl, backFieldOk g := by
  intro T fl hget
  unfold synthField at hget
  repeat' split at hget
  all_goals try exact h T fl hget
  all_goals dsimp only at hget
  all_goals repeat' split at hget
  all_goals try exact h T fl hget
  all_goals refine bucket_step nf _ model.name _ h ?_ ?_ ?_ T fl hget
  all_goals try rfl
  all_goals try
    (refine ⟨rfl, rfl, rfl, ?_⟩
     intro a ha r har
     subst har
     simp_all)
  all_goals simp_all

/-- C1 (amended): every bucket of the back-relation synthesis map contains
at most one inverse field per owning model (the pending-bucket guard makes
the owner types of a bucket pairwise distinct — no duplicate inverse is ever
added), and every synthesised field is list-typed, non-optional, documented
with the generated-content marker, and any relation attribute it carries has
empty key lists and a present name.  Omissions, however, do occur: the
counterexample `C1_back_relation_cx` shows a named self-relation for which
no inverse field exists in the final output. -/
theorem C1_back_relation_synthesis (mm ms : List PrismaModel) (T : String)
    (fl : List PrismaField)
    (hget : jsMapGet (synthBackFields mm ms) T = some fl) :
    (fl.map (fun g => g.type.nameOf)).Nodup ∧ ∀ g ∈ fl, backFieldOk g :=
  foldl_preserves
    (fun nf => ∀ T fl, jsMapGet nf T = some fl →
      (fl.map (fun g => g.type.nameOf)).Nodup ∧ ∀ g ∈ fl, backFieldOk g)
    _
    (fun nf model hP =>
      foldl_preserves _ (synthField mm ms model)
        (fun nf' field hP' => synthField_preserves mm ms model nf' field hP')
        model.fields nf hP)
    ms [] (fun _ _ hget => Option.noConfusion hget) T fl hget

/-- C1 counterexample: in the reverse output for a single entity with a
named self-relation, the `parent` field carries the relation name
`CategoryTree` yet the number of matching inverse fields in the whole
schema is zero, not one — `hasBackRelation` counts the forward field itself
for self-relations, so synthesis is suppressed. -/
theorem C1_back_relation_cx :
    (∃ m ∈ (zodToPrisma noFuzzy zsC1).models, m.name = "Category" ∧
       ∃ f ∈ m.fields, f.name = "parent" ∧
         typeIsModel f.type "Category" = true ∧
         relNameOf f = some (some "CategoryTree")) ∧
    (inverseFieldsFor (zodToPrisma noFuzzy zsC1) "Category" "parent"
        "CategoryTree" "Category").length ≠ 1 := by
  with_unfolding_all decide

/-- Witness for C1's amended theorem: the synthesis map over
`[postModelW, userModelW]` holds exactly one pending back-field for `User`,
and it satisfies the synthesised-field invariant. -/
theorem C1_back_relation_synthesis_witness :
    jsMapGet (synthBackFields [postModelW, userModelW]
        [postModelW, userModelW]) "User" = some [backFieldW] ∧
    (([backFieldW].map (fun g => g.type.nameOf)).Nodup ∧
      ∀ g ∈ [backFieldW], backFieldOk g) :=
  ⟨by with_unfolding_all decide,
    C1_back_relation_synthesis [postModelW, userModelW]
      [postModelW, userModelW] "User" [backFieldW]
      (by with_unfolding_all decide)⟩

end Prazod
